import Mathlib

/-!
Verification of `utils`: the pagination descriptor and the nullable time.

Shallow embedding of `src/utils/pagination.go`, `src/utils/time.go` and
`src/utils/tx.go`.

Conventions of the embedding

* A Go `string` is a Lean `String`.  Every test the code makes on strings
  (emptiness, equality, scanning for ASCII digits and signs) gives the same
  answer on the UTF-8 bytes and on the characters.
* A Go `int` / `int64` is an `Int`; the 64-bit range is explicit wherever the
  code can observe it (`strconv.ParseInt`, `strconv.Itoa`, `UnixNano`).
* A Go `url.Values` (`map[string][]string`) is an association list; a `nil`
  map is `none`.
* Functions of the Go standard library used by the code are modelled after
  their documented behaviour and carry the name they have in Go.
-/

deriving instance DecidableEq for Except

namespace utils

/-! ## strconv -/

/-- The two failures of `strconv.ParseInt`: `invalid` is Go's `ErrSyntax`,
`outOfRange` is Go's `ErrRange`. -/
inductive NumError where
  | invalid
  | outOfRange
  deriving DecidableEq, Repr

/-- Largest value of a `uint64`. -/
def maxUint64 : Nat := 2 ^ 64 - 1

/-- The digit loop of `strconv.ParseUint(s, 10, 64)`: `n` is the value read so
far.  A byte that is not a decimal digit is a syntax error; `n >= cutoff`
before the multiplication, or a sum that wraps around, is a range error. -/
def parseUintLoop : Nat → List Char → Except NumError Nat
  | n, [] => .ok n
  | n, c :: cs =>
    if '0' ≤ c ∧ c ≤ '9' then
      let d := c.toNat - '0'.toNat
      if n ≥ maxUint64 / 10 + 1 then .error .outOfRange
      else
        let n10 := (n * 10) % 2 ^ 64
        let n1 := (n10 + d) % 2 ^ 64
        if n1 < n10 ∨ n1 > maxUint64 then .error .outOfRange
        else parseUintLoop n1 cs
    else .error .invalid

/-- Go `strconv.ParseUint(s, 10, 64)` on the bytes of `s`. -/
def ParseUint (s : List Char) : Except NumError Nat :=
  match s with
  | [] => .error .invalid
  | _ => parseUintLoop 0 s

/-- Go `strconv.ParseInt(s, 10, 64)`: an optional sign, then `ParseUint`; the
magnitude must fit a signed 64-bit integer. -/
def ParseInt (s : String) : Except NumError Int :=
  match s.data with
  | [] => .error .invalid
  | c :: cs =>
    let neg := c = '-'
    let body := if c = '+' ∨ c = '-' then cs else c :: cs
    match ParseUint body with
    | .error e => .error e
    | .ok un =>
      if ¬ neg ∧ un ≥ 2 ^ 63 then .error .outOfRange
      else if neg ∧ un > 2 ^ 63 then .error .outOfRange
      else .ok (if neg then - (un : Int) else (un : Int))

/-- Decimal digits of `u`, written from the right into the accumulator, as the
buffer loop of Go's `strconv.formatBits` does for base 10.  The first argument
bounds the number of digits (20 for a `uint64`). -/
def formatBits : Nat → Nat → List Char → List Char
  | 0, _, acc => acc
  | fuel + 1, u, acc =>
    let acc1 := Char.ofNat ('0'.toNat + u % 10) :: acc
    if u < 10 then acc1 else formatBits fuel (u / 10) acc1

/-- Go `strconv.Itoa(i)` (that is `FormatInt(int64(i), 10)`): a minus sign for
a negative number, then the decimal digits of the magnitude. -/
def Itoa (i : Int) : String :=
  if i < 0 then String.mk ('-' :: formatBits 20 i.natAbs [])
  else String.mk (formatBits 20 i.natAbs [])

/-! ## net/url -/

/-- Go `url.Values`, a `map[string][]string`. -/
abbrev Values := List (String × List String)

/-- The map lookup `v[key]`: the slice stored under `key`, the empty (nil)
slice when the key is absent. -/
def Values.lookup (v : Values) (key : String) : List String :=
  match v with
  | [] => []
  | (k, vs) :: rest => if k = key then vs else Values.lookup rest key

/-- Whether `key` is a key of the map. -/
def Values.Has (v : Values) (key : String) : Bool :=
  v.any (fun kv => kv.1 = key)

/-- Go `Values.Get`: the first value stored under `key`, or `""`. -/
def Values.Get (v : Values) (key : String) : String :=
  match Values.lookup v key with
  | [] => ""
  | x :: _ => x

/-- The map update `v[key] = vs`. -/
def Values.set (v : Values) (key : String) (vs : List String) : Values :=
  match v with
  | [] => [(key, vs)]
  | (k, old) :: rest =>
    if k = key then (k, vs) :: rest else (k, old) :: Values.set rest key vs

/-- Go `Values.Add`: `v[key] = append(v[key], value)`. -/
def Values.Add (v : Values) (key value : String) : Values :=
  Values.set v key (Values.lookup v key ++ [value])

/-! ## pagination.go -/

/-- Go `len(s)` for a string: its length in bytes. -/
def len (s : String) : Nat := s.utf8ByteSize

/-- The constant `DefaultPageSize`. -/
def DefaultPageSize : Int := 20

/-- The struct `Page`.  The field `Sort` is named `SortKey` here, `Sort` being a
reserved word of Lean. -/
structure Page where
  PageStart : Int
  PageSize : Int
  Order : String
  SortKey : String
  Keyword : String
  deriving DecidableEq, Repr

/-- The zero value `Page{}`. -/
def Page.zero : Page := ⟨0, 0, "", "", ""⟩

/-- The fields of a `Page` are Go `int`s (64-bit). -/
def Page.InRange (p : Page) : Prop :=
  (-(2 : Int) ^ 63 ≤ p.PageStart ∧ p.PageStart < 2 ^ 63) ∧
  (-(2 : Int) ^ 63 ≤ p.PageSize ∧ p.PageSize < 2 ^ 63)

instance (p : Page) : Decidable p.InRange := by
  unfold Page.InRange; infer_instance

/-- Go `NewPage(params)`; `none` is the nil map. -/
def NewPage (params : Option Values) : Page :=
  match params with
  | none =>
    { PageStart := 0, PageSize := DefaultPageSize, Order := "DESC", SortKey := "", Keyword := "" }
  | some params =>
    let page : Page := Page.zero
    let page : Page :=
      match ParseInt (params.Get "pageStart") with
      | .ok n => { page with PageStart := n }
      | .error _ => page
    let page : Page :=
      match ParseInt (params.Get "pageSize") with
      | .ok n => { page with PageSize := n }
      | .error _ => page
    let page : Page :=
      if page.PageSize = 0 then { page with PageSize := DefaultPageSize } else page
    let page : Page := { page with SortKey := params.Get "sort" }
    let page : Page := { page with Order := params.Get "order" }
    let page : Page := if len page.Order = 0 then { page with Order := "DESC" } else page
    { page with Keyword := params.Get "keyword" }

/-- Go `Page.ToParams`. -/
def Page.ToParams (p : Page) : Values :=
  let params : Values := []
  let params := params.Add "pageStart" (Itoa p.PageStart)
  let params := params.Add "pageSize" (Itoa p.PageSize)
  let params := if len p.SortKey > 0 then params.Add "sort" p.SortKey else params
  let params := if len p.Order > 0 then params.Add "order" p.Order else params
  params

/-- Go `error`: an error value is represented by its message. -/
abbrev Error := String

/-- Go `Page.Validate`: `none` is the nil error.  The messages are those built
by `errors.Errorf`, `%v` printing an `int` in decimal and a string as it is. -/
def Page.Validate (p : Page) : Option Error :=
  if p.PageStart < 0 then
    some ("pageStart must greater or equal than 0, got " ++ Itoa p.PageStart)
  else if p.PageSize < 1 then
    some ("size must greater than 0, got " ++ Itoa p.PageSize)
  else if len p.Order > 0 then
    if p.Order ≠ "ASC" ∧ p.Order ≠ "DESC" then
      some ("invalid sort order: " ++ p.Order)
    else none
  else none

/-- Go `Values.Get` on a map that may be nil: reading a nil map finds no key. -/
def GetNil (params : Option Values) (key : String) : String :=
  match params with
  | none => ""
  | some v => v.Get key

/-- Whether `key` is missing from a map that may be nil. -/
def Missing (params : Option Values) (key : String) : Bool :=
  match params with
  | none => true
  | some v => !v.Has key

/-- The value of a run of decimal digits read from the left, starting from `n`. -/
def decimalValue (n : Nat) (cs : List Char) : Nat :=
  cs.foldl (fun a c => 10 * a + (c.toNat - '0'.toNat)) n

/-- A base-10 64-bit integer literal, in the words of the specification: an
optional sign `+` or `-`, then one or more decimal digits, denoting a number
from `-2^63` to `2^63 - 1`.  Gives the number denoted, `none` for any other
text. -/
def int64Literal (s : String) : Option Int :=
  let neg : Bool := s.data.head? = some '-'
  let body : List Char :=
    match s.data with
    | [] => []
    | c :: cs => if c = '+' ∨ c = '-' then cs else c :: cs
  if body ≠ [] ∧ ∀ c ∈ body, '0' ≤ c ∧ c ≤ '9' then
    let v : Int := if neg then - (decimalValue 0 body : Int) else (decimalValue 0 body : Int)
    if -(2 : Int) ^ 63 ≤ v ∧ v < 2 ^ 63 then some v else none
  else none

set_option linter.dupNamespace false

/-! ## time (Go standard library): instants -/

/-- Go `*time.Location`, restricted to zones with a fixed offset: the number of
seconds east of UTC. -/
abbrev time.Location := Int

/-- Go `time.Time`: an instant with nanosecond precision in a location.  `sec`
is the number of seconds elapsed since January 1, 1970 UTC, `nsec` the
nanoseconds within that second. -/
structure time.Time where
  sec : Int
  nsec : Nat
  loc : time.Location
  deriving DecidableEq, Repr

/-- The zero value `time.Time{}`: January 1, year 1, 00:00:00 UTC. -/
def time.Time.zero : time.Time := ⟨-62135596800, 0, 0⟩

/-- Go `Time.Unix`. -/
def time.Time.Unix (t : time.Time) : Int := t.sec

/-- Wrap-around of `int64` arithmetic. -/
def wrapInt64 (x : Int) : Int := (x + 2 ^ 63) % 2 ^ 64 - 2 ^ 63

/-- Go `Time.UnixNano`: `sec*1e9 + nsec` computed in `int64`. -/
def time.Time.UnixNano (t : time.Time) : Int := wrapInt64 (t.sec * 1000000000 + t.nsec)

/-- Go `time.RFC3339`. -/
def time.RFC3339 : String := "2006-01-02T15:04:05Z07:00"

/-! ## gopkg.in/nullbio/null.v6 -/

/-- The struct `null.Time`. -/
structure null.Time where
  Time : time.Time
  Valid : Bool
  deriving DecidableEq, Repr

/-- Go `null.TimeFrom`: a `null.Time` that is always valid. -/
def null.TimeFrom (t : time.Time) : null.Time := { Time := t, Valid := true }

/-- Go `(*null.Time).SetValid`: stores `v` and marks the value valid. -/
def null.Time.SetValid (_t : null.Time) (v : time.Time) : null.Time :=
  { Time := v, Valid := true }

/-- Go `null.NullBytes`. -/
def null.NullBytes : String := "null"

/-! ## The standard library functions called by time.go -/

/-- The functions of `encoding/json` and `time` that `time.go` calls.  Byte
slices are strings; a failing call returns its error. -/
structure Stdlib where
  /-- Go `json.Marshal(s)` for a string `s`. -/
  jsonMarshal : String → String
  /-- Go `json.Unmarshal(b, &s)` for a string variable `s`. -/
  jsonUnmarshal : String → Except Error String
  /-- The location returned by `time.LoadLocation("Local")`. -/
  Local : time.Location
  /-- Go `t.Format(layout)`; the instant comes first, then the layout. -/
  Format : time.Time → String → String
  /-- Go `time.ParseInLocation(layout, value, loc)`. -/
  ParseInLocation : String → String → time.Location → Except Error time.Time
  /-- Go `time.Parse(layout, value)`. -/
  Parse : String → String → Except Error time.Time

/-! ## time.go -/

/-- The constant `format`. -/
def format : String := "2006-01-02 15:04:05"

/-- The constant `formatMs`. -/
def formatMs : String := "2006-01-02 15:04:05.999"

/-- The struct `Time`, which embeds `null.Time`. -/
structure Time where
  Time : null.Time
  deriving DecidableEq, Repr

/-- The promoted field `t.Valid`. -/
def Time.Valid (t : utils.Time) : Bool := t.Time.Valid

/-- The assignment `t.Valid = b` through the embedded `null.Time`. -/
def Time.setValidFlag (t : utils.Time) (b : Bool) : utils.Time := { Time := { t.Time with Valid := b } }

/-- The zero value `Time{}`. -/
def Time.zero : utils.Time := { Time := { Time := time.Time.zero, Valid := false } }

/-- Go `TimeFrom`. -/
def TimeFrom (t : time.Time) : Time := { Time := null.TimeFrom t }

/-- Go `Time.Unix`. -/
def Time.Unix (t : utils.Time) : Int :=
  if ¬ t.Valid then 0 else t.Time.Time.Unix

/-- Go `Time.UnixNano`. -/
def Time.UnixNano (t : utils.Time) : Int :=
  if ¬ t.Valid then 0 else t.Time.Time.UnixNano

/-- Go `Time.UnixMilli`: `UnixNano() / 1e6`, an `int64` division, which
truncates toward zero. -/
def Time.UnixMilli (t : utils.Time) : Int :=
  if ¬ t.Valid then 0 else Int.tdiv t.Time.Time.UnixNano 1000000

/-- Go `Time.MarshalJSON` (its error result is always nil). -/
def Time.MarshalJSON (L : Stdlib) (t : utils.Time) : String :=
  if ¬ t.Valid then null.NullBytes
  else L.jsonMarshal (L.Format t.Time.Time format)

/-- Go `(*Time).SetValid`: the receiver after the call. -/
def Time.SetValid (t : utils.Time) (v : time.Time) : utils.Time :=
  if v.Unix ≤ 0 then t
  else { Time := t.Time.SetValid v }

/-- The body shared by `(*Time).UnmarshalJSON` and `(*TimeMs).UnmarshalJSON`,
which differ in the layout only.  A byte slice is `none` when nil.  The result
is the receiver after the call and the error returned (`none` for nil). -/
def unmarshalWith (L : Stdlib) (layout : String) (t : Time) (b : Option String) :
    Time × Option Error :=
  match b with
  | none => (t.setValidFlag false, none)
  | some b =>
    if len b = 0 ∨ b = null.NullBytes then (t.setValidFlag false, none)
    else
      match L.jsonUnmarshal b with
      | .error err => (t, some err)
      | .ok s =>
        match L.ParseInLocation layout s L.Local with
        | .ok val => (t.SetValid val, none)
        | .error _ =>
          match L.Parse time.RFC3339 s with
          | .error err => (t, some err)
          | .ok val => (t.SetValid val, none)

/-- Go `(*Time).UnmarshalJSON`. -/
def Time.UnmarshalJSON (L : Stdlib) (t : utils.Time) (b : Option String) : utils.Time × Option Error :=
  unmarshalWith L format t b

/-- The dynamic type of the argument of `Scan`: a `time.Time`, nil, or a value
of another type, given by its `%T` and `%v` renderings. -/
inductive ScanValue where
  | time (x : time.Time)
  | nil
  | other (typeName : String) (text : String)
  deriving DecidableEq, Repr

/-- Go `(*Time).Scan`: the receiver after the call and the error returned. -/
def Time.Scan (t : utils.Time) (value : ScanValue) : utils.Time × Option Error :=
  match value with
  | .time x => (t.SetValid x, none)
  | .nil => (t.setValidFlag false, none)
  | .other ty v => (t, some ("null: cannot scan type " ++ ty ++ " into null.Time: " ++ v))

/-- The struct `TimeMs`, which embeds `Time`. -/
structure TimeMs where
  Time : Time
  deriving DecidableEq, Repr

/-- Go `TimeMs.MarshalJSON`. -/
def TimeMs.MarshalJSON (L : Stdlib) (t : TimeMs) : String :=
  if ¬ t.Time.Valid then null.NullBytes
  else L.jsonMarshal (L.Format t.Time.Time.Time formatMs)

/-- Go `(*TimeMs).UnmarshalJSON`. -/
def TimeMs.UnmarshalJSON (L : Stdlib) (t : TimeMs) (b : Option String) :
    TimeMs × Option Error :=
  ({ Time := (unmarshalWith L formatMs t.Time b).1 }, (unmarshalWith L formatMs t.Time b).2)

/-- The methods `Unix`, `UnixNano`, `UnixMilli` and the field `Valid` that
`TimeMs` gets from the embedded `Time`. -/
def TimeMs.Valid (t : TimeMs) : Bool := t.Time.Valid

/-- The promoted method `TimeMs.Unix`. -/
def TimeMs.Unix (t : TimeMs) : Int := t.Time.Unix

/-- The promoted method `TimeMs.UnixNano`. -/
def TimeMs.UnixNano (t : TimeMs) : Int := t.Time.UnixNano

/-- The promoted method `TimeMs.UnixMilli`. -/
def TimeMs.UnixMilli (t : TimeMs) : Int := t.Time.UnixMilli

/-! ## A model of the standard library: encoding/json on strings -/

namespace golib

/-- The double quote character. -/
def quote : Char := Char.ofNat 34

/-- The backslash character. -/
def backslash : Char := Char.ofNat 92

/-- A hexadecimal digit, lower case. -/
def hexChar (n : Nat) : Char :=
  if n < 10 then Char.ofNat ('0'.toNat + n) else Char.ofNat ('a'.toNat + (n - 10))

/-- The bytes `json.Marshal` writes for one character of a string (with HTML
escaping, the default). -/
def escapeChar (c : Char) : List Char :=
  if c = quote ∨ c = backslash then [backslash, c]
  else if c.toNat = 8 then [backslash, 'b']
  else if c.toNat = 12 then [backslash, 'f']
  else if c.toNat = 10 then [backslash, 'n']
  else if c.toNat = 13 then [backslash, 'r']
  else if c.toNat = 9 then [backslash, 't']
  else if c.toNat < 32 ∨ c = '<' ∨ c = '>' ∨ c = '&' then
    [backslash, 'u', '0', '0', hexChar (c.toNat / 16), hexChar (c.toNat % 16)]
  else if c.toNat = 8232 then [backslash, 'u', '2', '0', '2', '8']
  else if c.toNat = 8233 then [backslash, 'u', '2', '0', '2', '9']
  else [c]

/-- A character that `json.Marshal` writes as it is and that the decoder reads
as it is. -/
def plainChar (c : Char) : Prop :=
  escapeChar c = [c] ∧ c ≠ quote ∧ c ≠ backslash ∧ ¬ c.toNat < 32

instance (c : Char) : Decidable (plainChar c) := by
  unfold plainChar; infer_instance

/-- Go `json.Marshal(s)` for a string: the quoted, escaped text. -/
def jsonMarshal (s : String) : String :=
  String.mk (quote :: (s.data.flatMap escapeChar ++ [quote]))

/-- JSON white space. -/
def isSpace (c : Char) : Bool :=
  c = ' ' ∨ c.toNat = 9 ∨ c.toNat = 10 ∨ c.toNat = 13

/-- The value of a hexadecimal digit. -/
def hexValue (c : Char) : Option Nat :=
  if '0' ≤ c ∧ c ≤ '9' then some (c.toNat - '0'.toNat)
  else if 'a' ≤ c ∧ c ≤ 'f' then some (c.toNat - 'a'.toNat + 10)
  else if 'A' ≤ c ∧ c ≤ 'F' then some (c.toNat - 'A'.toNat + 10)
  else none

/-- Go `getu4`: the code unit of a leading `\uXXXX`. -/
def getu4 (cs : List Char) : Option Nat :=
  match cs with
  | b :: u :: c1 :: c2 :: c3 :: c4 :: _ =>
    if b = backslash ∧ u = 'u' then
      match hexValue c1, hexValue c2, hexValue c3, hexValue c4 with
      | some a1, some a2, some a3, some a4 => some (((a1 * 16 + a2) * 16 + a3) * 16 + a4)
      | _, _, _, _ => none
    else none
  | _ => none

/-- The body of a JSON string literal, after the opening quote: the decoded
text and what follows the closing quote.  `fuel` bounds the number of steps.
A control character, an unknown escape or a missing closing quote is an
error. -/
def unquote : Nat → List Char → List Char → Option (List Char × List Char)
  | 0, _, _ => none
  | fuel + 1, cs, acc =>
    match cs with
    | [] => none
    | c :: rest =>
      if c = quote then some (acc.reverse, rest)
      else if c = backslash then
        match rest with
        | [] => none
        | e :: rest1 =>
          if e = quote ∨ e = backslash ∨ e = '/' then unquote fuel rest1 (e :: acc)
          else if e = 'b' then unquote fuel rest1 (Char.ofNat 8 :: acc)
          else if e = 'f' then unquote fuel rest1 (Char.ofNat 12 :: acc)
          else if e = 'n' then unquote fuel rest1 (Char.ofNat 10 :: acc)
          else if e = 'r' then unquote fuel rest1 (Char.ofNat 13 :: acc)
          else if e = 't' then unquote fuel rest1 (Char.ofNat 9 :: acc)
          else if e = 'u' then
            match getu4 cs with
            | none => none
            | some rr =>
              let rest2 := rest1.drop 4
              if 55296 ≤ rr ∧ rr < 57344 then
                match getu4 rest2 with
                | some rr1 =>
                  if rr < 56320 ∧ 56320 ≤ rr1 ∧ rr1 < 57344 then
                    unquote fuel (rest2.drop 6)
                      (Char.ofNat ((rr - 55296) * 1024 + (rr1 - 56320) + 65536) :: acc)
                  else unquote fuel rest2 (Char.ofNat 65533 :: acc)
                | none => unquote fuel rest2 (Char.ofNat 65533 :: acc)
              else unquote fuel rest2 (Char.ofNat rr :: acc)
          else none
      else if c.toNat < 32 then none
      else unquote fuel rest (c :: acc)

/-- Go `json.Unmarshal(b, &s)` for a string variable `s` holding `""`: a JSON
string literal, surrounded by optional white space, gives its text; the
literal `null` leaves `s` as it is; any other input is an error (a
`SyntaxError` or an `UnmarshalTypeError` in Go). -/
def jsonUnmarshal (b : String) : Except Error String :=
  let body := b.data.dropWhile isSpace
  match body with
  | c :: rest =>
    if c = quote then
      match unquote (rest.length + 1) rest [] with
      | some (text, tail) =>
        if tail.all isSpace then .ok (String.mk text)
        else .error "invalid character after top-level value"
      | none => .error "invalid string literal"
    else if (body.reverse.dropWhile isSpace).reverse = "null".data then .ok ""
    else .error "json: cannot unmarshal into Go value of type string"
  | [] => .error "unexpected end of JSON input"

end golib

/-! ## A model of the standard library: package time

The calendar arithmetic follows `time.absDate`, `time.absClock`,
`time.daysSinceEpoch` and `time.Date`; formatting and parsing follow
`Time.Format` and `time.Parse` for the three layouts `time.go` uses.  Go works
in `uint64` and `int`; the model works in unbounded numbers, which agrees with
Go on the years 0 to 9999 that the layouts can express. -/

namespace golib

/-- Go `absoluteZeroYear`. -/
def absoluteZeroYear : Int := -292277022399

/-- Go `unixToInternal + internalToAbsolute`: what is added to Unix seconds to
get seconds since the absolute zero year. -/
def unixToAbsolute : Int := 9223372028715321600

/-- Go `isLeap`. -/
def isLeap (year : Int) : Bool :=
  year % 4 = 0 ∧ (year % 100 ≠ 0 ∨ year % 400 = 0)

/-- Go `daysBefore[m]`: the days of a non-leap year before month `m + 1`. -/
def daysBefore (m : Nat) : Nat :=
  [0, 31, 59, 90, 120, 151, 181, 212, 243, 273, 304, 334, 365].getD m 0

/-- Go `daysIn(m, year)`. -/
def daysIn (m : Nat) (year : Int) : Nat :=
  if m = 2 ∧ isLeap year then 29 else daysBefore m - daysBefore (m - 1)

/-- Go `daysSinceEpoch(year)`: days from the absolute epoch to January 1 of
`year`. -/
def daysSinceEpoch (year : Int) : Nat :=
  let y := (year - absoluteZeroYear).toNat
  let n400 := y / 400
  let y := y - 400 * n400
  let d := 146097 * n400
  let n100 := y / 100
  let y := y - 100 * n100
  let d := d + 36524 * n100
  let n4 := y / 4
  let y := y - 4 * n4
  let d := d + 1461 * n4
  d + 365 * y

/-- The first half of Go `absDate`: the year of the day `d` (counted from the
absolute epoch) and the day within that year. -/
def absYear (d : Nat) : Int × Nat :=
  let n := d / 146097
  let y := 400 * n
  let d := d - 146097 * n
  let n := d / 36524
  let n := n - n / 4
  let y := y + 100 * n
  let d := d - 36524 * n
  let n := d / 1461
  let y := y + 4 * n
  let d := d - 1461 * n
  let n := d / 365
  let n := n - n / 4
  let y := y + n
  let d := d - 365 * n
  ((y : Int) + absoluteZeroYear, d)

/-- The second half of Go `absDate`: month and day of the month from the day
of the year, `leap` telling whether the year is a leap year. -/
def monthDay (leap : Bool) (yday : Nat) : Nat × Nat :=
  if leap ∧ yday = 31 + 29 - 1 then (2, 29)
  else
    let day := if leap ∧ yday > 31 + 29 - 1 then yday - 1 else yday
    let month := day / 31
    let endDay := daysBefore (month + 1)
    if day ≥ endDay then (month + 2, day - endDay + 1)
    else (month + 1, day - daysBefore month + 1)

/-- Go `absDate(abs, true)`: year, month, day of the absolute time `abs`. -/
def absDate (abs : Nat) : Int × Nat × Nat :=
  let yd := absYear (abs / 86400)
  let md := monthDay (isLeap yd.1) yd.2
  (yd.1, md.1, md.2)

/-- Go `absClock(abs)`: hour, minute, second of the absolute time `abs`. -/
def absClock (abs : Nat) : Nat × Nat × Nat :=
  let sec := abs % 86400
  let hour := sec / 3600
  let sec := sec - hour * 3600
  let min := sec / 60
  let sec := sec - min * 60
  (hour, min, sec)

/-- Go `Time.abs`: seconds since the absolute epoch, shifted by the offset of
the location, as a `uint64`. -/
def abs (t : time.Time) : Nat :=
  ((t.sec + t.loc + unixToAbsolute) % 2 ^ 64).toNat

/-- Go `time.Date` on fields that are already in range, as they are where
`Parse` calls it: the instant of the wall-clock reading in the zone `loc`. -/
def Date (year : Int) (month day hour min sec nsec : Nat) (loc : time.Location) : time.Time :=
  let d := daysSinceEpoch year
  let d := d + daysBefore (month - 1)
  let d := if isLeap year ∧ month ≥ 3 then d + 1 else d
  let d := d + (day - 1)
  let abs := d * 86400 + (hour * 3600 + min * 60 + sec)
  let unix : Int := (abs : Int) - unixToAbsolute
  { sec := unix - loc, nsec := nsec, loc := loc }

/-! ### Formatting -/

/-- The decimal digit `k`, from 0 to 9, as a character. -/
def digitChar (k : Nat) : Char := Char.ofNat ('0'.toNat + k)

/-- Go `appendInt(b, x, width)`: the decimal digits of `x`, padded with zeros
on the left to `width` digits, after a minus sign when `x` is negative. -/
def appendInt (x : Int) (width : Nat) : List Char :=
  let digits := formatBits 20 x.natAbs []
  let padded := List.replicate (width - digits.length) '0' ++ digits
  if x < 0 then '-' :: padded else padded

/-- Go `appendNano` for the layout element `.999`: up to three digits of the
fraction, without trailing zeros, and nothing at all for a zero fraction. -/
def appendNano999 (nanosec : Nat) : List Char :=
  if nanosec = 0 then []
  else
    let digits := (appendInt nanosec 9).take 3
    let trimmed := (digits.reverse.dropWhile (fun c => c = '0')).reverse
    if trimmed = [] then [] else '.' :: trimmed

/-- Go `t.Format(format)`, the layout `2006-01-02 15:04:05`, with the given
separator between date and clock. -/
def formatDateTime (t : time.Time) (sep : Char) : List Char :=
  let date := absDate (abs t)
  let clock := absClock (abs t)
  appendInt date.1 4 ++ '-' :: appendInt date.2.1 2 ++ '-' :: appendInt date.2.2 2 ++
    sep :: appendInt clock.1 2 ++ ':' :: appendInt clock.2.1 2 ++ ':' :: appendInt clock.2.2 2

/-- The layout element `Z07:00` of Go `Time.Format`. -/
def formatZone (offset : Int) : List Char :=
  if offset = 0 then ['Z']
  else
    let zone := Int.tdiv offset 60
    let sign := if zone < 0 then '-' else '+'
    sign :: appendInt (zone.natAbs / 60) 2 ++ ':' :: appendInt (zone.natAbs % 60) 2

/-- Go `t.Format(layout)` for the layouts `format`, `formatMs` and
`time.RFC3339`; other layouts are not modelled and give the empty text. -/
def Format (t : time.Time) (layout : String) : String :=
  if layout = format then String.mk (formatDateTime t ' ')
  else if layout = formatMs then String.mk (formatDateTime t ' ' ++ appendNano999 t.nsec)
  else if layout = time.RFC3339 then String.mk (formatDateTime t 'T' ++ formatZone t.loc)
  else ""

/-! ### Parsing -/

/-- Go `isDigit(s, 0)` on the first byte, false on the empty text. -/
def isDigit (c : Char) : Bool := '0' ≤ c ∧ c ≤ '9'

/-- Go `getnum(s, fixed)`: one or two digits; two are required when `fixed`. -/
def getnum (s : List Char) (fixed : Bool) : Except Error (Nat × List Char) :=
  match s with
  | [] => .error "bad value"
  | c0 :: rest0 =>
    if ¬ isDigit c0 then .error "bad value"
    else
      match rest0 with
      | [] => if fixed then .error "bad value" else .ok (c0.toNat - '0'.toNat, rest0)
      | c1 :: rest1 =>
        if ¬ isDigit c1 then
          if fixed then .error "bad value" else .ok (c0.toNat - '0'.toNat, rest0)
        else .ok ((c0.toNat - '0'.toNat) * 10 + (c1.toNat - '0'.toNat), rest1)

/-- The layout element `2006` of Go `Parse`: exactly four digits. -/
def getYear (s : List Char) : Except Error (Nat × List Char) :=
  match s with
  | c0 :: c1 :: c2 :: c3 :: rest =>
    if isDigit c0 ∧ isDigit c1 ∧ isDigit c2 ∧ isDigit c3 then
      .ok (decimalValue 0 [c0, c1, c2, c3], rest)
    else .error "bad value"
  | _ => .error "bad value"

/-- Go `skip(value, prefix)` for a prefix of one character other than a
space. -/
def skipChar (c : Char) (s : List Char) : Except Error (List Char) :=
  match s with
  | [] => .error "bad value"
  | x :: rest => if x = c then .ok rest else .error "bad value"

/-- Go `skip(value, " ")`: a space of the layout stands for any run of spaces,
and needs the value to be empty or to start with a space. -/
def skipSpace (s : List Char) : Except Error (List Char) :=
  match s with
  | [] => .ok []
  | x :: _ => if x = ' ' then .ok (s.dropWhile (fun c => c = ' ')) else .error "bad value"

/-- Go `parseNanoseconds(value, nbytes)` where `value` is a separator followed
by `digits` (at least one digit): at most nine digits count, scaled to
nanoseconds. -/
def parseNanoseconds (digits : List Char) : Nat :=
  let used := digits.take 9
  decimalValue 0 used * 10 ^ (9 - used.length)

/-- A fraction of a second in the value, where Go `Parse` accepts one: a
period or a comma followed by at least one digit.  Gives the nanoseconds and
the rest of the value; `none` when the value has no such fraction. -/
def getFraction (s : List Char) : Option (Nat × List Char) :=
  match s with
  | p :: d :: rest =>
    if (p = '.' ∨ p = ',') ∧ isDigit d then
      let digits := d :: rest.takeWhile isDigit
      some (parseNanoseconds digits, rest.dropWhile isDigit)
    else none
  | _ => none

/-- The layout element `Z07:00` of Go `Parse`: `Z` for UTC, or a sign, two
digits, a colon and two digits.  Gives the offset in seconds. -/
def getZone (s : List Char) : Except Error (Int × List Char) :=
  match s with
  | 'Z' :: rest => .ok (0, rest)
  | sign :: h1 :: h2 :: colon :: m1 :: m2 :: rest =>
    if colon ≠ ':' then .error "bad value"
    else
      match getnum [h1, h2] true, getnum [m1, m2] true with
      | .ok (hr, _), .ok (mm, _) =>
        if hr > 24 then .error "time zone offset hour out of range"
        else if mm > 60 then .error "time zone offset minute out of range"
        else if sign = '+' then .ok ((((hr * 60 + mm) * 60 : Nat) : Int), rest)
        else if sign = '-' then .ok (- (((hr * 60 + mm) * 60 : Nat) : Int), rest)
        else .error "bad value"
      | _, _ => .error "bad value"
  | _ => .error "bad value"

/-- The date and clock part shared by the three layouts, as Go `Parse` reads
it: year, month, day, the separator, hour, minute, second and a fraction of a
second if the value has one (Go reads the fraction in the same way whether
or not the layout has the element `.999`).  `space` tells whether the
separator of the layout is a space or the letter `T`. -/
def parseDateTime (s : List Char) (space : Bool) :
    Except Error ((Nat × Nat × Nat × Nat × Nat × Nat × Nat) × List Char) := do
  let (year, s) ← getYear s
  let s ← skipChar '-' s
  let (month, s) ← getnum s true
  if month = 0 ∨ 12 < month then throw "month out of range"
  let s ← skipChar '-' s
  let (day, s) ← getnum s true
  let s ← if space then skipSpace s else skipChar 'T' s
  let (hour, s) ← getnum s false
  if 24 ≤ hour then throw "hour out of range"
  let s ← skipChar ':' s
  let (min, s) ← getnum s true
  if 60 ≤ min then throw "minute out of range"
  let s ← skipChar ':' s
  let (sec, s) ← getnum s true
  if 60 ≤ sec then throw "second out of range"
  match getFraction s with
  | some (nsec, s) => pure ((year, month, day, hour, min, sec, nsec), s)
  | none => pure ((year, month, day, hour, min, sec, 0), s)

/-- Go `time.ParseInLocation(layout, value, loc)` for the layouts `format`,
`formatMs` and `time.RFC3339`; other layouts are not modelled and give an
error.  After the elements of the layout nothing may be left of the value, the
day must exist in its month, and the reading is taken in the zone written in
the value, or in `loc` when the layout has no zone. -/
def ParseInLocation (layout : String) (value : String) (loc : time.Location) :
    Except Error time.Time :=
  if layout = format ∨ layout = formatMs then
    match parseDateTime value.data true with
    | .error e => .error e
    | .ok ((year, month, day, hour, min, sec, nsec), rest) =>
      if rest ≠ [] then .error "extra text"
      else if day < 1 ∨ day > daysIn month year then .error "day out of range"
      else .ok (Date year month day hour min sec nsec loc)
  else if layout = time.RFC3339 then
    match parseDateTime value.data false with
    | .error e => .error e
    | .ok ((year, month, day, hour, min, sec, nsec), rest) =>
      match getZone rest with
      | .error e => .error e
      | .ok (offset, rest) =>
        if rest ≠ [] then .error "extra text"
        else if day < 1 ∨ day > daysIn month year then .error "day out of range"
        else .ok (Date year month day hour min sec nsec offset)
  else .error "layout not modelled"

/-- Go `time.Parse(layout, value)`: `ParseInLocation` with UTC. -/
def Parse (layout : String) (value : String) : Except Error time.Time :=
  ParseInLocation layout value 0

end golib

/-- The standard library as modelled in `golib`, on a machine whose local zone
has the fixed offset `loc`. -/
def goStdlib (loc : time.Location) : Stdlib where
  jsonMarshal := golib.jsonMarshal
  jsonUnmarshal := golib.jsonUnmarshal
  Local := loc
  Format := golib.Format
  ParseInLocation := golib.ParseInLocation
  Parse := golib.Parse

/-! ## Values of `Time` that the operations can produce -/

/-- The values of `Time` obtained from the zero value `Time{}` through
`SetValid`, `UnmarshalJSON` and `Scan`, in any number of calls with any
arguments. -/
inductive Reachable (L : Stdlib) : utils.Time → Prop where
  | zero : Reachable L Time.zero
  | SetValid (t : utils.Time) (v : time.Time) :
      Reachable L t → Reachable L (t.SetValid v)
  | UnmarshalJSON (t : utils.Time) (b : Option String) :
      Reachable L t → Reachable L (t.UnmarshalJSON L b).1
  | Scan (t : utils.Time) (value : ScanValue) :
      Reachable L t → Reachable L (t.Scan value).1

/-! ## github.com/juju/errors -/

/-- Go `errors.Trace(err)` for a non-nil `err`: it records the place of the
call and leaves the message as it is. -/
def errors.Trace (err : Error) : Error := err

/-- Go `errors.Annotatef(err, msg)` for a non-nil `err`: an error whose message
is `msg`, a colon and the message of `err`. -/
def errors.Annotatef (err : Error) (msg : String) : Error := msg ++ ": " ++ err

/-! ## tx.go -/

/-- Modelled from the spec: the transactional executor `*gorp.Transaction`,
which is not under src/.  Its `Commit` and `Rollback` act on the state `W` of
the store and either succeed or fail with an error. -/
structure Transaction (W : Type) where
  Commit : W → W × Option Error
  Rollback : W → W × Option Error

/-- The type `TxHandler`, a function from the executor to an error; `none` is
the nil function.  A unit of work may change the state of the store. -/
abbrev TxHandler (W : Type) := Option (W → W × Option Error)

/-- The calls `TxHandler.Do` makes. -/
inductive TxCall where
  | handler
  | Commit
  | Rollback
  deriving DecidableEq, Repr

/-- What a call of `TxHandler.Do` leaves behind: the error it returns (`none`
for nil), the state of the store, and the calls it made, in order. -/
structure DoResult (W : Type) where
  err : Option Error
  store : W
  calls : List TxCall

/-- Go `TxHandler.Do`. -/
def TxHandler.Do {W : Type} (h : TxHandler W) (tx : Transaction W) (w : W) : DoResult W :=
  match h with
  | none => { err := none, store := w, calls := [] }
  | some f =>
    match f w with
    | (w1, some err) =>
      match tx.Rollback w1 with
      | (w2, some rerr) =>
        { err := some (errors.Annotatef rerr "TxHandler.do.rollback"), store := w2,
          calls := [.handler, .Rollback] }
      | (w2, none) => { err := some err, store := w2, calls := [.handler, .Rollback] }
    | (w1, none) =>
      match tx.Commit w1 with
      | (w2, some cerr) =>
        { err := some (errors.Annotatef cerr "TxHandler.do.commit"), store := w2,
          calls := [.handler, .Commit] }
      | (w2, none) => { err := none, store := w2, calls := [.handler, .Commit] }

/-- A transaction that keeps a record of the calls really made on it: the
store is paired with the list of calls so far, and each call of `Commit` or
`Rollback` applies that of `tx` to the store and adds itself to the record. -/
def Transaction.recorded {W : Type} (tx : Transaction W) : Transaction (W × List TxCall) where
  Commit := fun s => (((tx.Commit s.1).1, s.2 ++ [TxCall.Commit]), (tx.Commit s.1).2)
  Rollback := fun s => (((tx.Rollback s.1).1, s.2 ++ [TxCall.Rollback]), (tx.Rollback s.1).2)

/-- A unit of work that adds itself to the record of calls each time it is
run. -/
def recordedHandler {W : Type} (f : W → W × Option Error) :
    W × List TxCall → (W × List TxCall) × Option Error :=
  fun s => (((f s.1).1, s.2 ++ [TxCall.handler]), (f s.1).2)

/-! ## pagination.go: the paged query executor -/

/-- Modelled from the spec: the query abstraction `*Query` and the executor
`gorp.SqlExecutor`, which are not under src/.  `Q` is the state of a query,
`W` the state of the store, `H` the content of the destination, `V` a bound
value.  The query is mutable and chainable: `ClearOrderBy`, `OrderByString`,
`Offset` and `Limit` change the query they are called on and return it;
`Count` and `FetchAll` run the query against the store and may fail;
`ValQuery` gives the SQL text, the bound values and an error; `QueryValError`
builds an error from an error, a query text and bound values (`none` for a nil
slice); `SelectInt` is the scalar query of the executor. -/
structure QueryOps (W Q H V : Type) where
  Count : Q → W → W × Except Error Int
  FetchAll : Q → W → H → W × H × Option Error
  ClearOrderBy : Q → Q
  OrderByString : Q → String → String → Q
  Offset : Q → Int → Q
  Limit : Q → Int → Q
  ValQuery : Q → String × List V × Option Error
  QueryValError : Q → Error → String → Option (List V) → Error
  SelectInt : W → String → List V → W × Except Error Int

/-- The calls the paged query executor makes on the store, with the query (or
the text and values) each call is made with. -/
inductive QueryCall (Q V : Type) where
  | Count (cq : Q)
  | FetchAll (q : Q)
  | SelectInt (text : String) (vals : List V)
  deriving DecidableEq, Repr

/-- What a call of the paged query executor leaves behind: the state of the
store, of the data query, of the page descriptor (`none` for a nil pointer)
and of the destination, and the calls made on the store, in order. -/
structure Effects (W Q H V : Type) where
  tx : W
  q : Q
  page : Option Page
  holder : H
  calls : List (QueryCall Q V)

/-- The struct `PageResponse`. -/
structure PageResponse (H : Type) where
  Page : Option Page
  Total : Int
  Data : H

/-- Go `NewPageResponse`. -/
def NewPageResponse {H : Type} (page : Option Page) (total : Int) (data : H) : PageResponse H :=
  { Page := page, Total := total, Data := data }

/-- The block `if page != nil { ... }` that `LoadPage` and `LoadPage2` share
word for word: validation, then ordering, offset and limit.  Gives the error to
return, or the page descriptor and the data query after the block. -/
def shapeQuery {W Q H V : Type} (ops : QueryOps W Q H V) (q : Q) (page : Option Page) :
    Except Error (Option Page × Q) :=
  match page with
  | none => .ok (none, q)
  | some p =>
    match p.Validate with
    | some err => .error (errors.Trace err)
    | none =>
      if len p.SortKey > 0 then
        let p1 : Page := if len p.Order = 0 then { p with Order := "DESC" } else p
        let q1 := ops.OrderByString (ops.ClearOrderBy q) p1.SortKey p1.Order
        .ok (some p1, ops.Limit (ops.Offset q1 p1.PageStart) p1.PageSize)
      else
        .ok (some p, ops.Limit (ops.Offset q p.PageStart) p.PageSize)

/-- The first lines of `LoadPage`: the query to count is `countQueries[0]` when
it is supplied and not nil, and the data query `q` otherwise. -/
def countTarget {Q : Type} (q : Q) (countQueries : List (Option Q)) : Q :=
  match countQueries with
  | some v :: _ => v
  | _ => q

/-- Go `LoadPage`: the count and the error returned, and what the call leaves
behind.  The variadic `countQueries` is a list whose elements may be nil. -/
def LoadPage {W Q H V : Type} (ops : QueryOps W Q H V) (tx : W) (q : Q) (page : Option Page)
    (holder : H) (countQueries : List (Option Q)) : (Int × Option Error) × Effects W Q H V :=
  let cq : Q := countTarget q countQueries
  match ops.Count cq tx with
  | (tx1, .error err) =>
    ((-1, some (errors.Trace err)),
      { tx := tx1, q := q, page := page, holder := holder, calls := [.Count cq] })
  | (tx1, .ok n) =>
    match shapeQuery ops q page with
    | .error err =>
      ((-1, some err),
        { tx := tx1, q := q, page := page, holder := holder, calls := [.Count cq] })
    | .ok (page1, q1) =>
      match ops.FetchAll q1 tx1 holder with
      | (tx2, holder1, some err) =>
        ((-1, some (errors.Trace err)),
          { tx := tx2, q := q1, page := page1, holder := holder1,
            calls := [.Count cq, .FetchAll q1] })
      | (tx2, holder1, none) =>
        ((n, none),
          { tx := tx2, q := q1, page := page1, holder := holder1,
            calls := [.Count cq, .FetchAll q1] })

/-- Go `LoadPageResponse`. -/
def LoadPageResponse {W Q H V : Type} (ops : QueryOps W Q H V) (tx : W) (q : Q)
    (page : Option Page) (holder : H) (countQueries : List (Option Q)) :
    (Option (PageResponse H) × Option Error) × Effects W Q H V :=
  match LoadPage ops tx q page holder countQueries with
  | ((_, some err), eff) => ((none, some err), eff)
  | ((count, none), eff) => ((some (NewPageResponse eff.page count eff.holder), none), eff)

/-- Go `LoadPage2`. -/
def LoadPage2 {W Q H V : Type} (ops : QueryOps W Q H V) (tx : W) (q : Q) (page : Option Page)
    (holder : H) : Option Error × Effects W Q H V :=
  match shapeQuery ops q page with
  | .error err =>
    (some err, { tx := tx, q := q, page := page, holder := holder, calls := [] })
  | .ok (page1, q1) =>
    match ops.FetchAll q1 tx holder with
    | (tx1, holder1, some err) =>
      (some (errors.Trace err),
        { tx := tx1, q := q1, page := page1, holder := holder1, calls := [.FetchAll q1] })
    | (tx1, holder1, none) =>
      (none, { tx := tx1, q := q1, page := page1, holder := holder1, calls := [.FetchAll q1] })

/-- Go `LoadPageResponse2`. -/
def LoadPageResponse2 {W Q H V : Type} (ops : QueryOps W Q H V) (tx : W) (q : Q)
    (page : Option Page) (holder : H) (countQuery : Q) :
    (Option (PageResponse H) × Option Error) × Effects W Q H V :=
  match ops.ValQuery countQuery with
  | (countQueryStr, _, some err) =>
    ((none, some (ops.QueryValError q err countQueryStr none)),
      { tx := tx, q := q, page := page, holder := holder, calls := [] })
  | (countQueryStr, vals, none) =>
    match ops.SelectInt tx countQueryStr vals with
    | (tx1, .error err) =>
      ((none, some (ops.QueryValError q err countQueryStr none)),
        { tx := tx1, q := q, page := page, holder := holder,
          calls := [.SelectInt countQueryStr vals] })
    | (tx1, .ok count) =>
      match LoadPage2 ops tx1 q page holder with
      | (some err, eff) =>
        ((none, some err),
          { eff with calls := .SelectInt countQueryStr vals :: eff.calls })
      | (none, eff) =>
        ((some (NewPageResponse eff.page count eff.holder), none),
          { eff with calls := .SelectInt countQueryStr vals :: eff.calls })

/-! ## A query builder and a stub executor -/

/-- Modelled from the spec: the query abstraction as a builder that holds the
ordering, the offset and the limit of a query, next to its SQL text and bound
values. -/
structure Query where
  text : String
  vals : List String
  orderBy : List (String × String)
  offset : Option Int
  limit : Option Int
  deriving DecidableEq, Repr

/-- Modelled from the spec: a stub of the executor, as in the end-to-end
examples of the spec: `total` is what a count reports, `rows` what a fetch of
a given query returns. -/
structure StubTx where
  total : Except Error Int
  rows : Query → Except Error (List Int)

/-- Modelled from the spec: the query abstraction on the builder `Query` and
the stub executor.  An error built by `QueryValError` keeps the query text and
the bound values it is given. -/
def specOps : QueryOps StubTx Query (List Int) String where
  Count := fun _ w => (w, w.total)
  FetchAll := fun q w holder =>
    match w.rows q with
    | .ok rows => (w, rows, none)
    | .error err => (w, holder, some err)
  ClearOrderBy := fun q => { q with orderBy := [] }
  OrderByString := fun q field direction => { q with orderBy := q.orderBy ++ [(field, direction)] }
  Offset := fun q n => { q with offset := some n }
  Limit := fun q n => { q with limit := some n }
  ValQuery := fun q => (q.text, q.vals, none)
  QueryValError := fun _ err text vals =>
    err ++ " [query: " ++ text ++ "] [values: " ++ ", ".intercalate (vals.getD []) ++ "]"
  SelectInt := fun w _ _ => (w, w.total)

/-- The executor of the end-to-end example of the spec: a count reports 5 rows,
and a fetch returns the rows 3 and 4 for a query ordered by `id DESC` with
offset 1 and limit 2, and no rows for any other query. -/
def exampleTx : StubTx where
  total := .ok 5
  rows := fun q =>
    if q.orderBy = [("id", "DESC")] ∧ q.offset = some 1 ∧ q.limit = some 2 then .ok [3, 4]
    else .ok []

/-- A data query that is ordered by `name ASC` before it is paged. -/
def exampleQuery : Query :=
  { text := "SELECT * FROM t", vals := [], orderBy := [("name", "ASC")], offset := none,
    limit := none }

/-- An executor on which every count and every scalar query fails. -/
def failingTx : StubTx where
  total := .error "boom"
  rows := fun _ => .ok []

/-- A pre-built count query with one bound value. -/
def exampleCountQuery : Query :=
  { text := "SELECT COUNT(1) FROM t WHERE id > ?", vals := ["7"], orderBy := [], offset := none,
    limit := none }

/-! ## Lemmas on strings, digits and maps -/

theorem len_eq_zero_iff (s : String) : len s = 0 ↔ s = "" := by
  unfold len
  constructor
  · intro h
    cases s with
    | mk l =>
      cases l with
      | nil => rfl
      | cons c cs =>
        simp only [String.utf8ByteSize, String.utf8ByteSize.go] at h
        have := Char.utf8Size_pos c
        omega
  · intro h; subst h; rfl

theorem len_empty : len "" = 0 := rfl

theorem len_pos_iff (s : String) : len s > 0 ↔ s ≠ "" := by
  rw [← not_iff_not, not_not, ← len_eq_zero_iff]; omega

theorem digit_toNat (d : Nat) (h : d < 10) :
    (Char.ofNat ('0'.toNat + d)).toNat = '0'.toNat + d := by
  interval_cases d <;> rfl

theorem digit_isDigit (d : Nat) (h : d < 10) :
    '0' ≤ Char.ofNat ('0'.toNat + d) ∧ Char.ofNat ('0'.toNat + d) ≤ '9' := by
  interval_cases d <;> decide

theorem parseUintLoop_append (n : Nat) (xs ys : List Char) :
    parseUintLoop n (xs ++ ys) =
      (match parseUintLoop n xs with
       | .ok m => parseUintLoop m ys
       | .error e => .error e) := by
  induction xs generalizing n with
  | nil => simp [parseUintLoop]
  | cons c cs ih =>
    simp only [List.cons_append, parseUintLoop]
    split_ifs <;> simp [ih]

theorem formatBits_acc (fuel u : Nat) (acc : List Char) :
    formatBits fuel u acc = formatBits fuel u [] ++ acc := by
  induction fuel generalizing u acc with
  | zero => simp [formatBits]
  | succ f ih =>
    simp only [formatBits]
    split_ifs
    · simp
    · rw [ih, ih (u / 10) [_]]; simp

theorem parseUintLoop_digit (n d : Nat) (hd : d < 10) (h : n * 10 + d < 2 ^ 64) :
    parseUintLoop n [Char.ofNat ('0'.toNat + d)] = .ok (n * 10 + d) := by
  have h1 := digit_isDigit d hd
  have h2 := digit_toNat d hd
  simp only [parseUintLoop, h1, h2, maxUint64]
  have : ¬ (n ≥ (2 ^ 64 - 1) / 10 + 1) := by omega
  have e1 : n * 10 % 2 ^ 64 = n * 10 := Nat.mod_eq_of_lt (by omega)
  have e2 : (n * 10 + ('0'.toNat + d - '0'.toNat)) % 2 ^ 64 = n * 10 + d := by
    rw [Nat.add_sub_cancel_left]; exact Nat.mod_eq_of_lt h
  simp only [and_self, if_true, this, if_false, e1, e2]
  rw [if_neg]
  omega

theorem parseUintLoop_formatBits (fuel u : Nat) (hf : u < 10 ^ fuel) (hu : u < 2 ^ 64) :
    parseUintLoop 0 (formatBits fuel u []) = .ok u := by
  induction fuel generalizing u with
  | zero =>
    have : u = 0 := by simpa using hf
    subst this; rfl
  | succ f ih =>
    simp only [formatBits]
    split_ifs with h10
    · have := parseUintLoop_digit 0 (u % 10) (Nat.mod_lt _ (by norm_num)) (by omega)
      rw [this]; congr 1; omega
    · rw [formatBits_acc, parseUintLoop_append, ih (u / 10) (by omega) (by omega)]
      simp only
      rw [parseUintLoop_digit _ _ (Nat.mod_lt _ (by norm_num)) (by omega)]
      congr 1; omega

theorem formatBits_ne_nil (fuel u : Nat) : formatBits (fuel + 1) u [] ≠ [] := by
  simp only [formatBits]
  split_ifs
  · simp
  · rw [formatBits_acc]; simp

theorem ParseUint_formatBits (u : Nat) (hu : u < 2 ^ 64) :
    ParseUint (formatBits 20 u []) = .ok u := by
  have hne := formatBits_ne_nil 19 u
  have := parseUintLoop_formatBits 20 u (by omega) hu
  unfold ParseUint
  split
  · contradiction
  · exact this

theorem formatBits_digits (fuel u : Nat) :
    ∀ c ∈ formatBits fuel u [], '0' ≤ c ∧ c ≤ '9' := by
  induction fuel generalizing u with
  | zero => simp [formatBits]
  | succ f ih =>
    intro c hc
    simp only [formatBits] at hc
    split_ifs at hc
    · simp only [List.mem_singleton] at hc
      subst hc
      exact digit_isDigit _ (Nat.mod_lt _ (by norm_num))
    · rw [formatBits_acc] at hc
      simp only [List.mem_append, List.mem_singleton] at hc
      rcases hc with hc | hc
      · exact ih _ c hc
      · subst hc
        exact digit_isDigit _ (Nat.mod_lt _ (by norm_num))

theorem ParseInt_cons (c : Char) (cs : List Char) :
    ParseInt (String.mk (c :: cs)) =
      (match ParseUint (if c = '+' ∨ c = '-' then cs else c :: cs) with
       | .error e => .error e
       | .ok un =>
         if ¬ (c = '-') ∧ un ≥ 2 ^ 63 then .error .outOfRange
         else if c = '-' ∧ un > 2 ^ 63 then .error .outOfRange
         else .ok (if c = '-' then - (un : Int) else (un : Int))) := by
  simp only [ParseInt]

theorem ParseInt_Itoa (x : Int) (h1 : -(2 : Int) ^ 63 ≤ x) (h2 : x < 2 ^ 63) :
    ParseInt (Itoa x) = .ok x := by
  unfold Itoa
  have hu : x.natAbs < 2 ^ 64 := by omega
  have hp := ParseUint_formatBits x.natAbs hu
  by_cases hx : x < 0
  · simp only [hx, if_true, ParseInt_cons]
    simp only [or_true, if_true, hp]
    have : ¬ (x.natAbs > 2 ^ 63) := by omega
    simp only [not_true_eq_false, false_and, if_false, this, and_false, if_true]
    congr 1; omega
  · have hne := formatBits_ne_nil 19 x.natAbs
    have hd := formatBits_digits 20 x.natAbs
    simp only [hx, if_false]
    cases hl : formatBits 20 x.natAbs [] with
    | nil => exact absurd hl hne
    | cons c cs =>
      have hc := hd c (by rw [hl]; simp)
      have hplus : c ≠ '+' := by
        rintro rfl; exact absurd hc.1 (by decide)
      have hminus : c ≠ '-' := by
        rintro rfl; exact absurd hc.1 (by decide)
      rw [ParseInt_cons]
      simp only [hplus, hminus, or_self, if_false, ← hl, hp]
      have : ¬ (x.natAbs ≥ 2 ^ 63) := by omega
      simp only [not_false_eq_true, true_and, this, if_false, false_and]
      congr 1; omega

theorem ParseInt_range (s : String) (n : Int) (h : ParseInt s = .ok n) :
    -(2 : Int) ^ 63 ≤ n ∧ n < 2 ^ 63 := by
  cases s with
  | mk l =>
    cases l with
    | nil => simp [ParseInt] at h
    | cons c cs =>
      rw [ParseInt_cons] at h
      split at h
      · cases h
      · rename_i un _
        by_cases hc : c = '-'
        · by_cases hb : un > 2 ^ 63
          · have hb1 : 9223372036854775808 < un := hb
            simp [hc, hb1] at h
          · simp only [hc, not_true_eq_false, false_and, if_false, hb, and_false, if_true] at h
            injection h with h; subst h; omega
        · by_cases hb : un ≥ 2 ^ 63
          · have hb1 : 9223372036854775808 ≤ un := hb
            simp [hc, hb1] at h
          · simp only [hc, not_false_eq_true, true_and, hb, if_false, false_and] at h
            injection h with h; subst h; omega

theorem Get_ToParams (p : Page) :
    p.ToParams.Get "pageStart" = Itoa p.PageStart ∧
    p.ToParams.Get "pageSize" = Itoa p.PageSize ∧
    p.ToParams.Get "sort" = p.SortKey ∧
    p.ToParams.Get "order" = p.Order ∧
    p.ToParams.Get "keyword" = "" := by
  by_cases hs : p.SortKey = "" <;> by_cases ho : p.Order = ""
  all_goals
    have hs1 := hs
    have ho1 := ho
    rw [← len_eq_zero_iff] at hs1 ho1
    simp [Page.ToParams, Values.Add, Values.set, Values.lookup, Values.Get, hs1, ho1, hs, ho,
      Nat.pos_iff_ne_zero]

/-- Reparsing the parameters written by `ToParams`: the numbers and the sort
field come back; a zero page size and an empty order take their defaults. -/
theorem NewPage_ToParams (p : Page) (h : p.InRange) :
    NewPage (some p.ToParams) =
      { PageStart := p.PageStart,
        PageSize := if p.PageSize = 0 then DefaultPageSize else p.PageSize,
        Order := if p.Order = "" then "DESC" else p.Order,
        SortKey := p.SortKey,
        Keyword := "" } := by
  obtain ⟨g1, g2, g3, g4, g5⟩ := Get_ToParams p
  obtain ⟨⟨a1, a2⟩, b1, b2⟩ := h
  simp only [NewPage, g1, g2, g3, g4, g5, ParseInt_Itoa _ a1 a2, ParseInt_Itoa _ b1 b2,
    Page.zero, len_eq_zero_iff]
  by_cases hz : p.PageSize = 0 <;> by_cases ho : p.Order = "" <;> simp [hz, ho]

/-- The fields of `NewPage (some params)` in terms of the two parses. -/
theorem NewPage_some (params : Values) :
    NewPage (some params) =
      { PageStart := (match ParseInt (params.Get "pageStart") with
          | .ok n => n
          | .error _ => 0),
        PageSize := (match ParseInt (params.Get "pageSize") with
          | .ok n => if n = 0 then DefaultPageSize else n
          | .error _ => DefaultPageSize),
        Order := if params.Get "order" = "" then "DESC" else params.Get "order",
        SortKey := params.Get "sort",
        Keyword := params.Get "keyword" } := by
  simp only [NewPage, Page.zero, len_eq_zero_iff]
  cases ParseInt (params.Get "pageStart") <;> cases ParseInt (params.Get "pageSize") <;>
    by_cases ho : params.Get "order" = "" <;> simp [ho] <;> split_ifs <;> simp_all

theorem NewPage_InRange (params : Option Values) : (NewPage params).InRange := by
  cases params with
  | none => simp [NewPage, Page.InRange, DefaultPageSize]
  | some v =>
    rw [NewPage_some]
    simp only [Page.InRange]
    constructor
    · cases h : ParseInt (v.Get "pageStart") with
      | error e => simp
      | ok n => exact ParseInt_range _ _ h
    · cases h : ParseInt (v.Get "pageSize") with
      | error e => simp [DefaultPageSize]
      | ok n =>
        have := ParseInt_range _ _ h
        simp only
        split_ifs
        · simp [DefaultPageSize]
        · exact this

theorem NewPage_PageSize_ne_zero (params : Option Values) : (NewPage params).PageSize ≠ 0 := by
  cases params with
  | none => simp [NewPage, DefaultPageSize]
  | some v =>
    rw [NewPage_some]
    cases h : ParseInt (v.Get "pageSize") with
    | error e => simp [DefaultPageSize]
    | ok n =>
      simp only
      split_ifs with hz
      · simp [DefaultPageSize]
      · exact hz

theorem NewPage_Order_ne_empty (params : Option Values) : (NewPage params).Order ≠ "" := by
  cases params with
  | none => simp [NewPage]
  | some v =>
    rw [NewPage_some]
    simp only
    split_ifs with hz
    · decide
    · exact hz

theorem decimalValue_ge (n : Nat) (cs : List Char) : n ≤ decimalValue n cs := by
  induction cs generalizing n with
  | nil => simp [decimalValue]
  | cons c cs ih =>
    have := ih (10 * n + (c.toNat - '0'.toNat))
    simp only [decimalValue, List.foldl_cons] at this ⊢
    omega

theorem isDigit_value_lt (c : Char) (h : '0' ≤ c ∧ c ≤ '9') : c.toNat - '0'.toNat < 10 := by
  have h2 : c.toNat ≤ '9'.toNat := h.2
  have : '9'.toNat = 57 := rfl
  have : '0'.toNat = 48 := rfl
  omega

/-- The digit loop of `ParseUint` succeeds exactly on runs of decimal digits
whose value fits 64 bits, and then returns that value. -/
theorem parseUintLoop_eq_ok_iff (n : Nat) (cs : List Char) (m : Nat) (hn : n < 2 ^ 64) :
    parseUintLoop n cs = .ok m ↔
      (∀ c ∈ cs, '0' ≤ c ∧ c ≤ '9') ∧ decimalValue n cs = m ∧ m < 2 ^ 64 := by
  induction cs generalizing n with
  | nil =>
    simp only [parseUintLoop, decimalValue, List.foldl_nil, List.not_mem_nil, false_imp_iff,
      forall_const, true_and, Except.ok.injEq]
    constructor
    · intro h; subst h; exact ⟨rfl, hn⟩
    · intro h; exact h.1
  | cons c cs ih =>
    simp only [parseUintLoop, List.mem_cons, forall_eq_or_imp]
    by_cases hc : '0' ≤ c ∧ c ≤ '9'
    · have hd := isDigit_value_lt c hc
      have hmono := decimalValue_ge (10 * n + (c.toNat - '0'.toNat)) cs
      have hstep : decimalValue n (c :: cs) = decimalValue (10 * n + (c.toNat - '0'.toNat)) cs := by
        simp [decimalValue]
      rw [if_pos hc, hstep]
      simp only [maxUint64]
      by_cases hcut : n ≥ (2 ^ 64 - 1) / 10 + 1
      · rw [if_pos hcut]
        constructor
        · intro h; cases h
        · rintro ⟨_, h2, h3⟩; omega
      · rw [if_neg hcut]
        have e1 : n * 10 % 2 ^ 64 = n * 10 := Nat.mod_eq_of_lt (by omega)
        simp only [e1]
        by_cases hov : n * 10 + (c.toNat - '0'.toNat) < 2 ^ 64
        · have e2 : (n * 10 + (c.toNat - '0'.toNat)) % 2 ^ 64 = n * 10 + (c.toNat - '0'.toNat) :=
            Nat.mod_eq_of_lt hov
          rw [e2, if_neg (by omega), ih _ hov]
          have e3 : n * 10 + (c.toNat - '0'.toNat) = 10 * n + (c.toNat - '0'.toNat) := by omega
          rw [e3]
          constructor
          · rintro ⟨a, b⟩; exact ⟨⟨hc, a⟩, b⟩
          · rintro ⟨⟨_, a⟩, b⟩; exact ⟨a, b⟩
        · have e2 : (n * 10 + (c.toNat - '0'.toNat)) % 2 ^ 64 < n * 10 := by omega
          rw [if_pos (Or.inl e2)]
          constructor
          · intro h; cases h
          · rintro ⟨_, h2, h3⟩; omega
    · rw [if_neg hc]
      constructor
      · intro h; cases h
      · rintro ⟨⟨h, _⟩, _⟩; exact absurd h hc

theorem ParseUint_eq_ok_iff (cs : List Char) (m : Nat) :
    ParseUint cs = .ok m ↔
      cs ≠ [] ∧ (∀ c ∈ cs, '0' ≤ c ∧ c ≤ '9') ∧ decimalValue 0 cs = m ∧ m < 2 ^ 64 := by
  cases cs with
  | nil => simp [ParseUint]
  | cons c cs =>
    simp only [ParseUint, ne_eq, reduceCtorEq, not_false_eq_true, true_and]
    exact parseUintLoop_eq_ok_iff 0 (c :: cs) m (by norm_num)

/-- The code and the specification agree on what a base-10 64-bit integer
literal is: `ParseInt` returns `n` exactly on the literals denoting `n`. -/
theorem ParseInt_eq_ok_iff (s : String) (n : Int) :
    ParseInt s = .ok n ↔ int64Literal s = some n := by
  cases s with
  | mk l =>
    cases l with
    | nil => simp [ParseInt, int64Literal]
    | cons c cs =>
      rw [ParseInt_cons]
      simp only [int64Literal, List.head?_cons, Option.some.injEq, decide_eq_true_eq]
      generalize hB : (if c = '+' ∨ c = '-' then cs else c :: cs) = B
      have hP := ParseUint_eq_ok_iff B
      by_cases hcond : B ≠ [] ∧ ∀ c ∈ B, '0' ≤ c ∧ c ≤ '9'
      · rw [if_pos hcond]
        by_cases hlt : decimalValue 0 B < 2 ^ 64
        · have hok : ParseUint B = .ok (decimalValue 0 B) :=
            (hP _).mpr ⟨hcond.1, hcond.2, rfl, hlt⟩
          rw [hok]
          simp only
          by_cases hc : c = '-'
          · simp only [hc, not_true_eq_false, false_and, if_false, true_and, if_true]
            by_cases hb : decimalValue 0 B > 2 ^ 63
            · rw [if_pos hb, if_neg (by omega)]; simp
            · rw [if_neg hb, if_pos (by omega)]; simp
          · simp only [hc, not_false_eq_true, true_and, false_and, if_false]
            by_cases hb : decimalValue 0 B ≥ 2 ^ 63
            · rw [if_pos hb, if_neg (by omega)]; simp
            · rw [if_neg hb, if_pos (by omega)]; simp
        · have herr : ∀ m, ParseUint B ≠ .ok m := by
            intro m hm
            have := (hP m).mp hm
            omega
          have hnone : ¬ (-(2 : Int) ^ 63 ≤ (if c = '-' then - (decimalValue 0 B : Int)
              else (decimalValue 0 B : Int)) ∧
              (if c = '-' then - (decimalValue 0 B : Int) else (decimalValue 0 B : Int)) < 2 ^ 63) := by
            split_ifs <;> omega
          rw [if_neg hnone]
          cases hr : ParseUint B with
          | error e => simp
          | ok m => exact absurd hr (herr m)
      · rw [if_neg hcond]
        cases hr : ParseUint B with
        | error e => simp
        | ok m =>
          have := (hP m).mp hr
          exact absurd ⟨this.1, this.2.1⟩ hcond

/-! ## Claims on the page descriptor -/

/-- C1: `Page.Validate` returns an error if and only if `PageStart < 0`, or
`PageSize < 1`, or `Order` is not one of `""`, `"ASC"`, `"DESC"` (compared
exactly); it returns nil in every other case, and the answer does not depend
on `Sort` and `Keyword`. -/
theorem Validate_error_iff (p : Page) :
    (p.Validate ≠ none ↔
      (p.PageStart < 0 ∨ p.PageSize < 1 ∨
        ¬ (p.Order = "" ∨ p.Order = "ASC" ∨ p.Order = "DESC"))) ∧
    (p.Validate = none ↔
      ¬ (p.PageStart < 0 ∨ p.PageSize < 1 ∨
        ¬ (p.Order = "" ∨ p.Order = "ASC" ∨ p.Order = "DESC"))) ∧
    (∀ s k : String, ({ p with SortKey := s, Keyword := k } : Page).Validate = p.Validate) := by
  have key : p.Validate = none ↔
      ¬ (p.PageStart < 0 ∨ p.PageSize < 1 ∨
        ¬ (p.Order = "" ∨ p.Order = "ASC" ∨ p.Order = "DESC")) := by
    unfold Page.Validate
    by_cases h1 : p.PageStart < 0
    · simp [h1]
    · by_cases h2 : p.PageSize < 1
      · simp [h1, h2]
      · by_cases h3 : p.Order = ""
        · have h3l : len p.Order = 0 := (len_eq_zero_iff _).mpr h3
          simp [h1, h2, h3, len_empty]
        · have h3l : len p.Order > 0 := (len_pos_iff _).mpr h3
          by_cases h4 : p.Order = "ASC"
          · simp [h1, h2, h3l, h4]
          · by_cases h5 : p.Order = "DESC"
            · simp [h1, h2, h3l, h5]
            · simp [h1, h2, h3, h3l, h4, h5]
  refine ⟨?_, key, ?_⟩
  · rw [ne_eq, key, not_not]
  · intro s k; rfl

/-- C2: round-trip stability.  For every parameter mapping (nil included),
parsing, serialising with `ToParams` and parsing again gives the same
`PageStart`, `PageSize`, `Sort` and `Order` as the first parse. -/
theorem NewPage_ToParams_NewPage (params : Option Values) :
    (NewPage (some (NewPage params).ToParams)).PageStart = (NewPage params).PageStart ∧
    (NewPage (some (NewPage params).ToParams)).PageSize = (NewPage params).PageSize ∧
    (NewPage (some (NewPage params).ToParams)).SortKey = (NewPage params).SortKey ∧
    (NewPage (some (NewPage params).ToParams)).Order = (NewPage params).Order := by
  rw [NewPage_ToParams _ (NewPage_InRange params)]
  simp [NewPage_PageSize_ne_zero params, NewPage_Order_ne_empty params]

/-- C3, as stated, fails: the page with `PageSize = 0` and `Order = ""` (and
`PageStart = 1`, `Sort = "id"`) is written by `ToParams` and read back by
`NewPage` with `PageSize = 20` and `Order = "DESC"`. -/
theorem ToParams_not_inverse_at_zero_size :
    (Page.InRange ⟨1, 0, "", "id", ""⟩) ∧
    ¬ ((NewPage (some (Page.ToParams ⟨1, 0, "", "id", ""⟩))).PageStart = 1 ∧
       (NewPage (some (Page.ToParams ⟨1, 0, "", "id", ""⟩))).PageSize = 0 ∧
       (NewPage (some (Page.ToParams ⟨1, 0, "", "id", ""⟩))).SortKey = "id" ∧
       (NewPage (some (Page.ToParams ⟨1, 0, "", "id", ""⟩))).Order = "") ∧
    (NewPage (some (Page.ToParams ⟨1, 0, "", "id", ""⟩))).PageSize = 20 ∧
    (NewPage (some (Page.ToParams ⟨1, 0, "", "id", ""⟩))).Order = "DESC" := by
  decide

/-- C3, amended: for every `Page` (its numbers being Go `int`s),
`NewPage (p.ToParams)` has the same `PageStart` and `Sort` as `p`, the same
`PageSize` unless `p.PageSize = 0`, which is read back as 20, and the same
`Order` unless `p.Order` is empty, which is read back as `"DESC"`; and
`ToParams` always writes the keys `pageStart` and `pageSize`, and the keys
`sort` and `order` exactly when the field is non-empty. -/
theorem ToParams_inverse_up_to_defaults (p : Page) (h : p.InRange) :
    (NewPage (some p.ToParams)).PageStart = p.PageStart ∧
    (NewPage (some p.ToParams)).SortKey = p.SortKey ∧
    (NewPage (some p.ToParams)).PageSize = (if p.PageSize = 0 then 20 else p.PageSize) ∧
    (NewPage (some p.ToParams)).Order = (if p.Order = "" then "DESC" else p.Order) ∧
    p.ToParams.Has "pageStart" = true ∧
    p.ToParams.Has "pageSize" = true ∧
    (p.ToParams.Has "sort" = true ↔ p.SortKey ≠ "") ∧
    (p.ToParams.Has "order" = true ↔ p.Order ≠ "") := by
  rw [NewPage_ToParams p h]
  refine ⟨rfl, rfl, rfl, rfl, ?_⟩
  by_cases hs : p.SortKey = "" <;> by_cases ho : p.Order = ""
  all_goals
    have hs1 := hs
    have ho1 := ho
    rw [← len_eq_zero_iff] at hs1 ho1
    simp [Page.ToParams, Values.Add, Values.set, Values.lookup, Values.Has, hs1, ho1, hs, ho,
      Nat.pos_iff_ne_zero, len_empty]

/-- Witness of C3 amended, at the page `{7, 0, "", "id", "k"}`. -/
theorem ToParams_inverse_up_to_defaults_witness :
    (Page.InRange ⟨7, 0, "", "id", "k"⟩) ∧
    (NewPage (some (Page.ToParams ⟨7, 0, "", "id", "k"⟩))).PageStart = 7 ∧
    (NewPage (some (Page.ToParams ⟨7, 0, "", "id", "k"⟩))).PageSize = 20 :=
  ⟨by decide,
   (ToParams_inverse_up_to_defaults ⟨7, 0, "", "id", "k"⟩ (by decide)).1,
   (ToParams_inverse_up_to_defaults ⟨7, 0, "", "id", "k"⟩ (by decide)).2.2.1⟩

/-- C4: `NewPage` is a total, forgiving parse.  For every parameter mapping
(nil included): a missing key reads as the empty text, which is no literal;
if the text of `pageStart` is not a base-10 64-bit integer literal then
`PageStart = 0`, otherwise it is the number denoted; if the text of `pageSize`
is not such a literal, or denotes 0, then `PageSize = 20`, otherwise it is the
number denoted; if the text of `order` is empty then `Order = "DESC"`, and any
other text is stored as it is. -/
theorem NewPage_forgiving (params : Option Values) :
    (∀ key, Missing params key = true → GetNil params key = "") ∧
    int64Literal "" = none ∧
    (NewPage params).PageStart =
      (match int64Literal (GetNil params "pageStart") with
       | none => 0
       | some n => n) ∧
    (NewPage params).PageSize =
      (match int64Literal (GetNil params "pageSize") with
       | none => 20
       | some n => if n = 0 then 20 else n) ∧
    (NewPage params).Order =
      (if GetNil params "order" = "" then "DESC" else GetNil params "order") := by
  refine ⟨?_, by decide, ?_⟩
  · intro key hk
    cases params with
    | none => rfl
    | some v =>
      simp only [Missing, Bool.not_eq_true', Values.Has] at hk
      simp only [GetNil, Values.Get]
      have : Values.lookup v key = [] := by
        induction v with
        | nil => rfl
        | cons kv rest ih =>
          simp only [List.any_cons, Bool.or_eq_false_iff, decide_eq_false_iff_not] at hk
          simp only [Values.lookup, hk.1, if_false]
          exact ih hk.2
      rw [this]
  · cases params with
    | none => simp only [NewPage, GetNil]; decide
    | some v =>
      rw [NewPage_some]
      simp only [GetNil]
      refine ⟨?_, ?_, trivial⟩
      · cases h : ParseInt (v.Get "pageStart") with
        | ok n => rw [(ParseInt_eq_ok_iff _ _).mp h]
        | error e =>
          cases h2 : int64Literal (v.Get "pageStart") with
          | none => rfl
          | some n => rw [(ParseInt_eq_ok_iff _ _).mpr h2] at h; cases h
      · cases h : ParseInt (v.Get "pageSize") with
        | ok n => rw [(ParseInt_eq_ok_iff _ _).mp h]; rfl
        | error e =>
          cases h2 : int64Literal (v.Get "pageSize") with
          | none => rfl
          | some n => rw [(ParseInt_eq_ok_iff _ _).mpr h2] at h; cases h

/-! ## Claims on the nullable time -/

theorem SetValid_of_nonpos (x : utils.Time) (v : time.Time) (h : v.Unix ≤ 0) :
    x.SetValid v = x := by
  simp [Time.SetValid, h]

theorem SetValid_of_pos (x : utils.Time) (v : time.Time) (h : 0 < v.Unix) :
    x.SetValid v = { Time := { Time := v, Valid := true } } := by
  have : ¬ v.Unix ≤ 0 := by omega
  simp [Time.SetValid, this, null.Time.SetValid]

/-- `SetValid` keeps the invariant: a valid value stores an instant after the
epoch. -/
theorem SetValid_inv (x : utils.Time) (v : time.Time)
    (h : x.Valid = true → 0 < x.Time.Time.Unix) :
    (x.SetValid v).Valid = true → 0 < (x.SetValid v).Time.Time.Unix := by
  by_cases hv : v.Unix ≤ 0
  · rw [SetValid_of_nonpos x v hv]; exact h
  · rw [SetValid_of_pos x v (by omega)]
    intro _
    show 0 < v.Unix
    omega

theorem setValidFlag_false_inv (x : utils.Time) :
    (x.setValidFlag false).Valid = true → 0 < (x.setValidFlag false).Time.Time.Unix := by
  intro h
  simp [Time.setValidFlag, Time.Valid] at h

/-- What the shared body of the two decoders does: it leaves the receiver as it
is, or clears its validity flag, or calls `SetValid`. -/
theorem unmarshalWith_cases (L : Stdlib) (layout : String) (t : utils.Time) (b : Option String) :
    (unmarshalWith L layout t b).1 = t ∨
    (unmarshalWith L layout t b).1 = t.setValidFlag false ∨
    ∃ v, (unmarshalWith L layout t b).1 = t.SetValid v := by
  unfold unmarshalWith
  cases b with
  | none => exact Or.inr (Or.inl rfl)
  | some b =>
    simp only
    split_ifs
    · exact Or.inr (Or.inl rfl)
    · cases L.jsonUnmarshal b with
      | error e => exact Or.inl rfl
      | ok s =>
        simp only
        cases L.ParseInLocation layout s L.Local with
        | ok v => exact Or.inr (Or.inr ⟨v, rfl⟩)
        | error e =>
          simp only
          cases L.Parse time.RFC3339 s with
          | ok v => exact Or.inr (Or.inr ⟨v, rfl⟩)
          | error e => exact Or.inl rfl

/-- C5: for every `Time` value `x`, valid or absent, `SetValid(v)` with
`v.Unix() <= 0` leaves `x` as it is, validity flag and stored instant alike;
with `v.Unix() > 0` it makes `x` valid with stored instant `v`. -/
theorem SetValid_frame (x : utils.Time) (v : time.Time) :
    (v.Unix ≤ 0 →
      x.SetValid v = x ∧ (x.SetValid v).Valid = x.Valid ∧
        (x.SetValid v).Time.Time = x.Time.Time) ∧
    (0 < v.Unix →
      (x.SetValid v).Valid = true ∧ (x.SetValid v).Time.Time = v) := by
  constructor
  · intro h
    rw [SetValid_of_nonpos x v h]
    exact ⟨rfl, rfl, rfl⟩
  · intro h
    rw [SetValid_of_pos x v h]
    exact ⟨rfl, rfl⟩

/-- Witness of C5: an instant at the epoch leaves a valid value alone, and an
instant after the epoch is stored in an absent value. -/
theorem SetValid_frame_witness :
    (TimeFrom ⟨1700000000, 5, 3600⟩).SetValid ⟨0, 999, 0⟩ = TimeFrom ⟨1700000000, 5, 3600⟩ ∧
    (Time.zero.SetValid ⟨1, 0, 0⟩).Valid = true ∧
    (Time.zero.SetValid ⟨1, 0, 0⟩).Time.Time = ⟨1, 0, 0⟩ :=
  ⟨((SetValid_frame (TimeFrom ⟨1700000000, 5, 3600⟩) ⟨0, 999, 0⟩).1 (by decide)).1,
   ((SetValid_frame Time.zero ⟨1, 0, 0⟩).2 (by decide)).1,
   ((SetValid_frame Time.zero ⟨1, 0, 0⟩).2 (by decide)).2⟩

/-- C6, as stated, fails: `TimeFrom` of the instant of the epoch, whose
`Unix()` is 0, is valid and stores that instant. -/
theorem TimeFrom_epoch_valid :
    (TimeFrom ⟨0, 0, 0⟩).Valid = true ∧ (TimeFrom ⟨0, 0, 0⟩).Time.Time.Unix ≤ 0 ∧
    (TimeFrom time.Time.zero).Valid = true ∧ (TimeFrom time.Time.zero).Time.Time.Unix ≤ 0 := by
  decide

/-- C6, amended: every `Time` value obtained from the zero value through
`SetValid`, `UnmarshalJSON` and `Scan` is never valid with a stored instant
whose `Unix()` is `<= 0`; `TimeFrom(t)` is outside this guarantee, being valid
with stored instant `t` for every `t`. -/
theorem Reachable_valid_pos (L : Stdlib) :
    (∀ x, Reachable L x → ¬ (x.Valid = true ∧ x.Time.Time.Unix ≤ 0)) ∧
    (∀ t, (TimeFrom t).Valid = true ∧ (TimeFrom t).Time.Time = t) := by
  refine ⟨?_, fun t => ⟨rfl, rfl⟩⟩
  intro x h
  have key : x.Valid = true → 0 < x.Time.Time.Unix := by
    induction h with
    | zero => intro h; simp [Time.zero, Time.Valid] at h
    | SetValid t v _ ih => exact SetValid_inv t v ih
    | UnmarshalJSON t b _ ih =>
      rcases unmarshalWith_cases L format t b with h | h | ⟨v, h⟩
      · rw [Time.UnmarshalJSON, h]; exact ih
      · rw [Time.UnmarshalJSON, h]; exact setValidFlag_false_inv t
      · rw [Time.UnmarshalJSON, h]; exact SetValid_inv t v ih
    | Scan t value _ ih =>
      cases value with
      | time v => exact SetValid_inv t v ih
      | nil => exact setValidFlag_false_inv t
      | other ty txt => exact ih
  rintro ⟨h1, h2⟩
  have := key h1
  omega

/-- Witness of C6 amended: the value reached from `Time{}` by `Scan` of an
instant before the epoch, then `SetValid` of an instant after it. -/
theorem Reachable_valid_pos_witness :
    Reachable (goStdlib 0) ((Time.zero.Scan (.time ⟨-5, 0, 0⟩)).1.SetValid ⟨7, 0, 0⟩) ∧
    ¬ (((Time.zero.Scan (.time ⟨-5, 0, 0⟩)).1.SetValid ⟨7, 0, 0⟩).Valid = true ∧
       ((Time.zero.Scan (.time ⟨-5, 0, 0⟩)).1.SetValid ⟨7, 0, 0⟩).Time.Time.Unix ≤ 0) :=
  ⟨Reachable.SetValid _ _ (Reachable.Scan _ _ Reachable.zero),
   (Reachable_valid_pos (goStdlib 0)).1 _
     (Reachable.SetValid _ _ (Reachable.Scan _ _ Reachable.zero))⟩

/-- C8: dual-format decoding.  For bytes that are neither empty nor the null
token and that decode as the JSON string `s`: `Time.UnmarshalJSON` returns an
error if and only if `s` parses neither under the fixed layout (in the local
zone) nor as RFC 3339; when the fixed layout parses, its instant is the one
passed to `SetValid`, whatever RFC 3339 parsing would give; when only RFC 3339
parses, decoding succeeds with the RFC 3339 instant.  The same holds for
`TimeMs.UnmarshalJSON` with the layout `formatMs`. -/
theorem UnmarshalJSON_dual_format (L : Stdlib) (b s : String)
    (hlen : len b ≠ 0) (hnull : b ≠ "null") (hs : L.jsonUnmarshal b = .ok s) :
    (∀ t : utils.Time,
      ((t.UnmarshalJSON L (some b)).2 ≠ none ↔
        (∃ e, L.ParseInLocation format s L.Local = .error e) ∧
        (∃ e, L.Parse time.RFC3339 s = .error e)) ∧
      (∀ v, L.ParseInLocation format s L.Local = .ok v →
        ∀ P, t.UnmarshalJSON { L with Parse := P } (some b) = (t.SetValid v, none)) ∧
      (∀ e v, L.ParseInLocation format s L.Local = .error e →
        L.Parse time.RFC3339 s = .ok v →
        t.UnmarshalJSON L (some b) = (t.SetValid v, none))) ∧
    (∀ t : TimeMs,
      ((t.UnmarshalJSON L (some b)).2 ≠ none ↔
        (∃ e, L.ParseInLocation formatMs s L.Local = .error e) ∧
        (∃ e, L.Parse time.RFC3339 s = .error e)) ∧
      (∀ v, L.ParseInLocation formatMs s L.Local = .ok v →
        ∀ P, t.UnmarshalJSON { L with Parse := P } (some b) =
          ({ Time := t.Time.SetValid v }, none)) ∧
      (∀ e v, L.ParseInLocation formatMs s L.Local = .error e →
        L.Parse time.RFC3339 s = .ok v →
        t.UnmarshalJSON L (some b) = ({ Time := t.Time.SetValid v }, none))) := by
  have hb : ¬ (len b = 0 ∨ b = null.NullBytes) := by
    rintro (h | h)
    · exact hlen h
    · exact hnull h
  have main : ∀ (layout : String) (t : utils.Time),
      ((unmarshalWith L layout t (some b)).2 ≠ none ↔
        (∃ e, L.ParseInLocation layout s L.Local = .error e) ∧
        (∃ e, L.Parse time.RFC3339 s = .error e)) ∧
      (∀ v, L.ParseInLocation layout s L.Local = .ok v →
        ∀ P, unmarshalWith { L with Parse := P } layout t (some b) = (t.SetValid v, none)) ∧
      (∀ e v, L.ParseInLocation layout s L.Local = .error e →
        L.Parse time.RFC3339 s = .ok v →
        unmarshalWith L layout t (some b) = (t.SetValid v, none)) := by
    intro layout t
    refine ⟨?_, ?_, ?_⟩
    · simp only [unmarshalWith, hb, if_false, hs]
      cases h1 : L.ParseInLocation layout s L.Local with
      | ok v => simp
      | error e =>
        cases h2 : L.Parse time.RFC3339 s with
        | ok v => simp
        | error e2 => simp
    · intro v hv P
      simp only [unmarshalWith, hb, if_false, hs, hv]
    · intro e v he hv
      simp only [unmarshalWith, hb, if_false, hs, he, hv]
  refine ⟨fun t => main format t, fun t => ?_⟩
  obtain ⟨m1, m2, m3⟩ := main formatMs t.Time
  refine ⟨m1, ?_, ?_⟩
  · intro v hv P
    simp only [TimeMs.UnmarshalJSON, m2 v hv P]
  · intro e v he hv
    simp only [TimeMs.UnmarshalJSON, m3 e v he hv]

/-- Witness of C8: the RFC 3339 text `2023-11-14T23:13:20Z` does not parse
under the fixed layout, and is decoded through the fallback. -/
theorem UnmarshalJSON_dual_format_witness :
    Time.zero.UnmarshalJSON (goStdlib 0) (some (golib.jsonMarshal "2023-11-14T23:13:20Z")) =
      (Time.zero.SetValid ⟨1700003600, 0, 0⟩, none) :=
  ((UnmarshalJSON_dual_format (goStdlib 0) (golib.jsonMarshal "2023-11-14T23:13:20Z")
      "2023-11-14T23:13:20Z" (by decide) (by decide) (by decide)).1 Time.zero).2.2
    "bad value" ⟨1700003600, 0, 0⟩ (by decide) (by decide)

/-- C9: for every prior state of the receiver, `Time.UnmarshalJSON` and
`TimeMs.UnmarshalJSON` applied to nil, to empty bytes or to the bytes `null`
return no error and leave the receiver absent (its stored instant untouched),
after which `Unix()`, `UnixMilli()` and `UnixNano()` all return 0. -/
theorem UnmarshalJSON_null (L : Stdlib) (b : Option String)
    (hb : b = none ∨ b = some "" ∨ b = some "null") :
    (∀ t : utils.Time,
      (t.UnmarshalJSON L b).2 = none ∧
      (t.UnmarshalJSON L b).1.Valid = false ∧
      (t.UnmarshalJSON L b).1.Time.Time = t.Time.Time ∧
      (t.UnmarshalJSON L b).1.Unix = 0 ∧
      (t.UnmarshalJSON L b).1.UnixMilli = 0 ∧
      (t.UnmarshalJSON L b).1.UnixNano = 0) ∧
    (∀ t : TimeMs,
      (t.UnmarshalJSON L b).2 = none ∧
      (t.UnmarshalJSON L b).1.Valid = false ∧
      (t.UnmarshalJSON L b).1.Time.Time.Time = t.Time.Time.Time ∧
      (t.UnmarshalJSON L b).1.Unix = 0 ∧
      (t.UnmarshalJSON L b).1.UnixMilli = 0 ∧
      (t.UnmarshalJSON L b).1.UnixNano = 0) := by
  have main : ∀ (layout : String) (t : utils.Time),
      unmarshalWith L layout t b = (t.setValidFlag false, none) := by
    intro layout t
    rcases hb with h | h | h <;> subst h
    · rfl
    · simp [unmarshalWith, len_empty]
    · simp [unmarshalWith, null.NullBytes]
  constructor
  · intro t
    rw [Time.UnmarshalJSON, main]
    exact ⟨rfl, rfl, rfl, rfl, rfl, rfl⟩
  · intro t
    rw [TimeMs.UnmarshalJSON, main]
    exact ⟨rfl, rfl, rfl, rfl, rfl, rfl⟩

/-- Witness of C9: decoding `null` into a valid value. -/
theorem UnmarshalJSON_null_witness :
    ((TimeFrom ⟨1700000000, 5, 0⟩).UnmarshalJSON (goStdlib 0) (some "null")).2 = none ∧
    ((TimeFrom ⟨1700000000, 5, 0⟩).UnmarshalJSON (goStdlib 0) (some "null")).1.Valid = false :=
  ⟨((UnmarshalJSON_null (goStdlib 0) (some "null") (Or.inr (Or.inr rfl))).1
      (TimeFrom ⟨1700000000, 5, 0⟩)).1,
   ((UnmarshalJSON_null (goStdlib 0) (some "null") (Or.inr (Or.inr rfl))).1
      (TimeFrom ⟨1700000000, 5, 0⟩)).2.1⟩

/-- C10: accessors.  For every absent `Time`, `Unix()`, `UnixMilli()` and
`UnixNano()` return 0; for every instant `t`, `TimeFrom(t).Unix() = t.Unix()`,
`TimeFrom(t).UnixNano() = t.UnixNano()`, and `TimeFrom(t).UnixMilli()` is
`t.UnixNano() / 1000000` with the division truncating toward zero. -/
theorem accessors (x : utils.Time) (t : time.Time) :
    (x.Valid = false → x.Unix = 0 ∧ x.UnixMilli = 0 ∧ x.UnixNano = 0) ∧
    (TimeFrom t).Unix = t.Unix ∧
    (TimeFrom t).UnixNano = t.UnixNano ∧
    (TimeFrom t).UnixMilli = Int.tdiv t.UnixNano 1000000 := by
  refine ⟨?_, rfl, rfl, rfl⟩
  intro h
  simp [Time.Unix, Time.UnixMilli, Time.UnixNano, h]

/-- Witness of C10: the zero value is absent; an instant one and a half
milliseconds before the epoch has `UnixMilli() = -1`, not `-2`. -/
theorem accessors_witness :
    Time.zero.Unix = 0 ∧ Time.zero.UnixMilli = 0 ∧ Time.zero.UnixNano = 0 ∧
    (TimeFrom ⟨-1, 998500000, 0⟩).UnixMilli = -1 :=
  ⟨((accessors Time.zero ⟨0, 0, 0⟩).1 rfl).1,
   ((accessors Time.zero ⟨0, 0, 0⟩).1 rfl).2.1,
   ((accessors Time.zero ⟨0, 0, 0⟩).1 rfl).2.2,
   (accessors Time.zero ⟨-1, 998500000, 0⟩).2.2.2.trans (by decide)⟩


/-! ## Lemmas on the calendar arithmetic -/

namespace golib

/-- Splitting a day count as `absYear` does. -/
theorem absYear_eq (n400 n100 n4 n1 yday : Nat)
    (h100 : n100 ≤ 3) (h4 : n4 ≤ 24) (h1 : n1 ≤ 3)
    (hy : yday < 365 ∨ (yday = 365 ∧ n1 = 3 ∧ (n4 < 24 ∨ n100 = 3))) :
    absYear (146097 * n400 + 36524 * n100 + 1461 * n4 + 365 * n1 + yday) =
      (((400 * n400 + 100 * n100 + 4 * n4 + n1 : Nat) : Int) + absoluteZeroYear, yday) := by
  have hlt : 36524 * n100 + 1461 * n4 + 365 * n1 + yday < 146097 := by omega
  have e1 : (146097 * n400 + 36524 * n100 + 1461 * n4 + 365 * n1 + yday) / 146097 = n400 := by
    omega
  have e2 : 146097 * n400 + 36524 * n100 + 1461 * n4 + 365 * n1 + yday - 146097 * n400 =
      36524 * n100 + 1461 * n4 + 365 * n1 + yday := by omega
  have e3 : (36524 * n100 + 1461 * n4 + 365 * n1 + yday) / 36524 -
      (36524 * n100 + 1461 * n4 + 365 * n1 + yday) / 36524 / 4 = n100 := by
    interval_cases n100 <;> omega
  have e4 : 36524 * n100 + 1461 * n4 + 365 * n1 + yday - 36524 * n100 =
      1461 * n4 + 365 * n1 + yday := by omega
  have e5 : (1461 * n4 + 365 * n1 + yday) / 1461 = n4 := by omega
  have e6 : 1461 * n4 + 365 * n1 + yday - 1461 * n4 = 365 * n1 + yday := by omega
  have e7 : (365 * n1 + yday) / 365 - (365 * n1 + yday) / 365 / 4 = n1 := by
    interval_cases n1 <;> omega
  have e8 : 365 * n1 + yday - 365 * n1 = yday := by omega
  simp only [absYear, e1, e2, e3, e4, e5, e6, e7, e8]

/-- Every day count splits into 400-year, 100-year and 4-year cycles, years
and a day of the year, the day 365 existing in leap years only. -/
theorem day_split (d : Nat) :
    ∃ n400 n100 n4 n1 yday : Nat, n100 ≤ 3 ∧ n4 ≤ 24 ∧ n1 ≤ 3 ∧
      (yday < 365 ∨ (yday = 365 ∧ n1 = 3 ∧ (n4 < 24 ∨ n100 = 3))) ∧
      d = 146097 * n400 + 36524 * n100 + 1461 * n4 + 365 * n1 + yday := by
  have hr1 : d % 146097 < 146097 := Nat.mod_lt _ (by norm_num)
  obtain ⟨n100, r2, h100, hr2, e2⟩ : ∃ n100 r2 : Nat, n100 ≤ 3 ∧
      (r2 < 36524 ∨ (r2 = 36524 ∧ n100 = 3)) ∧ d % 146097 = 36524 * n100 + r2 := by
    by_cases h : d % 146097 = 146096
    · exact ⟨3, 36524, by omega, by omega, by omega⟩
    · exact ⟨d % 146097 / 36524, d % 146097 % 36524, by omega, by omega, by omega⟩
  obtain ⟨n1, yday, h1, hy, e3⟩ : ∃ n1 yday : Nat, n1 ≤ 3 ∧
      (yday < 365 ∨ (yday = 365 ∧ n1 = 3)) ∧ r2 % 1461 = 365 * n1 + yday := by
    by_cases h : r2 % 1461 = 1460
    · exact ⟨3, 365, by omega, by omega, by omega⟩
    · exact ⟨r2 % 1461 / 365, r2 % 1461 % 365, by omega, by omega, by omega⟩
  refine ⟨d / 146097, n100, r2 / 1461, n1, yday, h100, by omega, h1, ?_, by omega⟩
  rcases hy with hy | ⟨hy, hn⟩
  · exact Or.inl hy
  · refine Or.inr ⟨hy, hn, ?_⟩
    omega

theorem daysSinceEpoch_eq (n400 n100 n4 n1 : Nat)
    (h100 : n100 ≤ 3) (h4 : n4 ≤ 24) (h1 : n1 ≤ 3) :
    daysSinceEpoch (((400 * n400 + 100 * n100 + 4 * n4 + n1 : Nat) : Int) + absoluteZeroYear) =
      146097 * n400 + 36524 * n100 + 1461 * n4 + 365 * n1 := by
  have e : ((((400 * n400 + 100 * n100 + 4 * n4 + n1 : Nat) : Int) + absoluteZeroYear) -
      absoluteZeroYear).toNat = 400 * n400 + 100 * n100 + 4 * n4 + n1 := by
    simp only [absoluteZeroYear]; omega
  simp only [daysSinceEpoch, e]
  omega

theorem isLeap_eq (n400 n100 n4 n1 : Nat)
    (h100 : n100 ≤ 3) (h4 : n4 ≤ 24) (h1 : n1 ≤ 3) :
    isLeap (((400 * n400 + 100 * n100 + 4 * n4 + n1 : Nat) : Int) + absoluteZeroYear) = true ↔
      (n1 = 3 ∧ (n4 < 24 ∨ n100 = 3)) := by
  simp only [isLeap, absoluteZeroYear, decide_eq_true_eq]
  omega

/-- The year and the day of the year computed by `absYear` are those of the
day `d`: counting the days up to January 1 of that year and adding the day of
the year gives `d` back, and the day of the year exists in that year. -/
theorem absYear_spec (d : Nat) :
    daysSinceEpoch (absYear d).1 + (absYear d).2 = d ∧
    (absYear d).2 < 365 + (if isLeap (absYear d).1 then 1 else 0) := by
  obtain ⟨n400, n100, n4, n1, yday, h100, h4, h1, hy, rfl⟩ := day_split d
  rw [absYear_eq n400 n100 n4 n1 yday h100 h4 h1 hy]
  simp only
  rw [daysSinceEpoch_eq n400 n100 n4 n1 h100 h4 h1]
  refine ⟨rfl, ?_⟩
  have hl := isLeap_eq n400 n100 n4 n1 h100 h4 h1
  by_cases hleap : isLeap (((400 * n400 + 100 * n100 + 4 * n4 + n1 : Nat) : Int) + absoluteZeroYear) = true
  · rw [if_pos hleap]; omega
  · rw [if_neg hleap]
    have := mt hl.mpr hleap
    omega

/-- The years 0 to 9999 are the days from 0000-01-01 up to, and without,
10000-01-01. -/
theorem absYear_range (d : Nat) (hlo : 106751990353566 ≤ d) (hhi : d < 106751994005991) :
    0 ≤ (absYear d).1 ∧ (absYear d).1 ≤ 9999 := by
  obtain ⟨n400, n100, n4, n1, yday, h100, h4, h1, hy, rfl⟩ := day_split d
  rw [absYear_eq n400 n100 n4 n1 yday h100 h4 h1 hy]
  simp only [absoluteZeroYear]
  have b0 : 730692555 ≤ n400 := by omega
  have b1 : n400 ≤ 730692580 := by omega
  constructor
  · by_cases h : n400 = 730692555
    · subst h
      interval_cases n100 <;> interval_cases n1 <;> omega
    · omega
  · by_cases h : n400 = 730692580
    · subst h
      interval_cases n100 <;> interval_cases n1 <;> omega
    · omega

set_option maxRecDepth 1000000 in
/-- Month and day of the month computed by `monthDay` are those of the day of
the year: the month is from 1 to 12, the day exists in the month, and the days
before the month plus the day give the day of the year back. -/
theorem monthDay_spec : ∀ leap : Bool, ∀ yday < 366,
    yday < 365 + (if leap then 1 else 0) →
    1 ≤ (monthDay leap yday).1 ∧ (monthDay leap yday).1 ≤ 12 ∧
    1 ≤ (monthDay leap yday).2 ∧ (monthDay leap yday).2 ≤ 31 ∧
    (monthDay leap yday).2 ≤
      (if (monthDay leap yday).1 = 2 ∧ leap then 29
       else daysBefore (monthDay leap yday).1 - daysBefore ((monthDay leap yday).1 - 1)) ∧
    daysBefore ((monthDay leap yday).1 - 1) +
      (if leap ∧ (monthDay leap yday).1 ≥ 3 then 1 else 0) + ((monthDay leap yday).2 - 1) = yday := by
  decide

end golib

/-! ## Lemmas on formatting and parsing -/

namespace golib

theorem digitChar_isDigit (k : Nat) (h : k < 10) : isDigit (digitChar k) = true := by
  interval_cases k <;> decide

theorem digitChar_value (k : Nat) (h : k < 10) : (digitChar k).toNat - '0'.toNat = k := by
  interval_cases k <;> decide

theorem digitChar_value48 (k : Nat) (h : k < 10) : (digitChar k).toNat - 48 = k :=
  digitChar_value k h

theorem digitChar_ne_space (k : Nat) (h : k < 10) : digitChar k ≠ ' ' := by
  interval_cases k <;> decide

theorem formatBits_lt (f x : Nat) (acc : List Char) (h : x < 10) :
    formatBits (f + 1) x acc = digitChar x :: acc := by
  simp [formatBits, h, digitChar, Nat.mod_eq_of_lt h]

theorem formatBits_ge (f x : Nat) (acc : List Char) (h : 10 ≤ x) :
    formatBits (f + 1) x acc = formatBits f (x / 10) (digitChar (x % 10) :: acc) := by
  have : ¬ x < 10 := by omega
  simp [formatBits, this, digitChar]

theorem appendInt_two (x : Nat) (h : x < 100) :
    appendInt (x : Int) 2 = [digitChar (x / 10), digitChar (x % 10)] := by
  have hneg : ¬ ((x : Int) < 0) := by omega
  simp only [appendInt, hneg, if_false, Int.natAbs_ofNat]
  by_cases h1 : x < 10
  · rw [formatBits_lt _ _ _ h1]
    have e1 : x / 10 = 0 := by omega
    have e2 : x % 10 = x := by omega
    rw [e1, e2]
    rfl
  · rw [formatBits_ge _ _ _ (by omega), formatBits_lt _ _ _ (by omega)]
    rfl

theorem appendInt_four (x : Nat) (h : x < 10000) :
    appendInt (x : Int) 4 =
      [digitChar (x / 1000), digitChar (x / 100 % 10), digitChar (x / 10 % 10),
        digitChar (x % 10)] := by
  have hneg : ¬ ((x : Int) < 0) := by omega
  simp only [appendInt, hneg, if_false, Int.natAbs_ofNat]
  by_cases h1 : x < 10
  · rw [formatBits_lt _ _ _ h1]
    have e1 : x / 1000 = 0 := by omega
    have e2 : x / 100 % 10 = 0 := by omega
    have e3 : x / 10 % 10 = 0 := by omega
    have e4 : x % 10 = x := by omega
    rw [e1, e2, e3, e4]
    rfl
  · by_cases h2 : x < 100
    · rw [formatBits_ge _ _ _ (by omega), formatBits_lt _ _ _ (by omega)]
      have e1 : x / 1000 = 0 := by omega
      have e2 : x / 100 % 10 = 0 := by omega
      have e3 : x / 10 % 10 = x / 10 := by omega
      rw [e1, e2, e3]
      rfl
    · by_cases h3 : x < 1000
      · rw [formatBits_ge _ _ _ (by omega), formatBits_ge _ _ _ (by omega),
          formatBits_lt _ _ _ (by omega)]
        have e1 : x / 1000 = 0 := by omega
        have e2 : x / 100 % 10 = x / 10 / 10 := by omega
        have e3 : x / 10 % 10 = x / 10 % 10 := rfl
        rw [e1, e2]
        rfl
      · rw [formatBits_ge _ _ _ (by omega), formatBits_ge _ _ _ (by omega),
          formatBits_ge _ _ _ (by omega), formatBits_lt _ _ _ (by omega)]
        have e1 : x / 1000 = x / 10 / 10 / 10 := by omega
        have e2 : x / 100 % 10 = x / 10 / 10 % 10 := by omega
        rw [e1, e2]
        rfl

theorem getnum_two (a b : Nat) (ha : a < 10) (hb : b < 10) (rest : List Char) (fixed : Bool) :
    getnum (digitChar a :: digitChar b :: rest) fixed = .ok (a * 10 + b, rest) := by
  simp [getnum, digitChar_isDigit, digitChar_value48, ha, hb]

theorem getYear_four (a b c d : Nat) (ha : a < 10) (hb : b < 10) (hc : c < 10) (hd : d < 10)
    (rest : List Char) :
    getYear (digitChar a :: digitChar b :: digitChar c :: digitChar d :: rest) =
      .ok (a * 1000 + b * 100 + c * 10 + d, rest) := by
  simp only [getYear, digitChar_isDigit, ha, hb, hc, hd, and_self, if_true, decimalValue,
    List.foldl_cons, List.foldl_nil, digitChar_value]
  congr 2
  omega

theorem skipChar_same (c : Char) (rest : List Char) : skipChar c (c :: rest) = .ok rest := by
  simp [skipChar]

theorem skipSpace_digit (k : Nat) (h : k < 10) (rest : List Char) :
    skipSpace (' ' :: digitChar k :: rest) = .ok (digitChar k :: rest) := by
  have := digitChar_ne_space k h
  simp [skipSpace, List.dropWhile, this]

theorem getFraction_nil : getFraction [] = none := rfl

/-- Reading back a date and a clock written with four, two, two, two, two and
two digits. -/
theorem parseDateTime_digits (y mo d h mi s : Nat) (hy : y < 10000) (hmo1 : 1 ≤ mo)
    (hmo : mo ≤ 12) (hd : d < 100) (hh : h < 24) (hmi : mi < 60) (hs : s < 60) :
    parseDateTime (appendInt (y : Int) 4 ++ '-' :: appendInt (mo : Int) 2 ++ '-' ::
      appendInt (d : Int) 2 ++ ' ' :: appendInt (h : Int) 2 ++ ':' :: appendInt (mi : Int) 2 ++
      ':' :: appendInt (s : Int) 2) true = .ok ((y, mo, d, h, mi, s, 0), []) := by
  rw [appendInt_four y hy, appendInt_two mo (by omega), appendInt_two d hd,
    appendInt_two h (by omega), appendInt_two mi (by omega), appendInt_two s (by omega)]
  have d1 : ∀ x : Nat, x % 10 < 10 := fun x => Nat.mod_lt _ (by norm_num)
  have ey : y / 1000 * 1000 + y / 100 % 10 * 100 + y / 10 % 10 * 10 + y % 10 = y := by omega
  have e2 : ∀ x : Nat, x / 10 * 10 + x % 10 = x := fun x => by omega
  have hmo0 : ¬ (mo = 0 ∨ 12 < mo) := by omega
  have hh0 : ¬ (24 ≤ h) := by omega
  have hmi0 : ¬ (60 ≤ mi) := by omega
  have hs0 : ¬ (60 ≤ s) := by omega
  simp only [List.cons_append, List.nil_append, parseDateTime, bind, Except.bind,
    getYear_four _ _ _ _ (show y / 1000 < 10 by omega) (d1 _) (d1 _) (d1 _),
    skipChar_same, getnum_two _ _ (show mo / 10 < 10 by omega) (d1 _),
    getnum_two _ _ (show d / 10 < 10 by omega) (d1 _),
    getnum_two _ _ (show h / 10 < 10 by omega) (d1 _),
    getnum_two _ _ (show mi / 10 < 10 by omega) (d1 _),
    getnum_two _ _ (show s / 10 < 10 by omega) (d1 _),
    skipSpace_digit _ (show h / 10 < 10 by omega), ey, e2, if_true, hmo0, hh0, hmi0, hs0,
    if_false, getFraction_nil, pure, Except.pure]

theorem absClock_spec (a : Nat) :
    (absClock a).1 < 24 ∧ (absClock a).2.1 < 60 ∧ (absClock a).2.2 < 60 ∧
    (absClock a).1 * 3600 + (absClock a).2.1 * 60 + (absClock a).2.2 = a % 86400 := by
  simp only [absClock]
  omega

theorem abs_eq (t : time.Time) (hlo : -62167219200 ≤ t.sec + t.loc)
    (hhi : t.sec + t.loc < 253402300800) :
    (abs t : Int) = t.sec + t.loc + unixToAbsolute ∧
    106751990353566 ≤ abs t / 86400 ∧ abs t / 86400 < 106751994005991 := by
  simp only [abs, unixToAbsolute]
  omega

/-- The shape of `t.Format(format)` for a wall clock reading in the years 0 to
9999: four digits of year, two each of month, day, hour, minute and second,
all in range, and such that `Date` maps them back to the instant of `t`. -/
theorem Format_shape (t : time.Time) (hlo : -62167219200 ≤ t.sec + t.loc)
    (hhi : t.sec + t.loc < 253402300800) :
    ∃ y M D H Mi S : Nat, y < 10000 ∧ 1 ≤ M ∧ M ≤ 12 ∧ 1 ≤ D ∧ D ≤ 31 ∧ H < 24 ∧ Mi < 60 ∧
      S < 60 ∧ D ≤ daysIn M (y : Int) ∧
      (Format t format).data =
        appendInt (y : Int) 4 ++ '-' :: appendInt (M : Int) 2 ++ '-' ::
        appendInt (D : Int) 2 ++ ' ' :: appendInt (H : Int) 2 ++ ':' ::
        appendInt (Mi : Int) 2 ++ ':' :: appendInt (S : Int) 2 ∧
      Date (y : Int) M D H Mi S 0 t.loc = { sec := t.sec, nsec := 0, loc := t.loc } := by
  obtain ⟨ha, hd0, hd1⟩ := abs_eq t hlo hhi
  obtain ⟨hy0, hy1⟩ := absYear_range _ hd0 hd1
  obtain ⟨hinv, hyday⟩ := absYear_spec (abs t / 86400)
  obtain ⟨hc1, hc2, hc3, hc4⟩ := absClock_spec (abs t)
  have hyd : (absYear (abs t / 86400)).2 < 366 := by
    split_ifs at hyday <;> omega
  obtain ⟨m1, m2, m3, m4, m5, m6⟩ :=
    monthDay_spec (isLeap (absYear (abs t / 86400)).1) (absYear (abs t / 86400)).2 hyd
      (by simpa using hyday)
  generalize hY : (absYear (abs t / 86400)).1 = Y at *
  generalize hyd' : (absYear (abs t / 86400)).2 = yd at *
  generalize hM : (monthDay (isLeap Y) yd).1 = M at *
  generalize hD : (monthDay (isLeap Y) yd).2 = D at *
  generalize hH : (absClock (abs t)).1 = H at *
  generalize hMi : (absClock (abs t)).2.1 = Mi at *
  generalize hS : (absClock (abs t)).2.2 = S at *
  obtain ⟨y, rfl⟩ : ∃ y : Nat, Y = (y : Int) := ⟨Y.toNat, by omega⟩
  refine ⟨y, M, D, H, Mi, S, by omega, m1, m2, m3, m4, hc1, hc2, hc3, ?_, ?_, ?_⟩
  · simp only [daysIn]
    omega
  · simp only [Format, if_true, formatDateTime, absDate, hY, hyd', hM, hD, hH, hMi, hS]
  · simp only [Date, time.Time.mk.injEq, and_true]
    have e : (if isLeap (y : Int) = true ∧ M ≥ 3 then
          daysSinceEpoch (y : Int) + daysBefore (M - 1) + 1
        else daysSinceEpoch (y : Int) + daysBefore (M - 1)) =
        daysSinceEpoch (y : Int) + (daysBefore (M - 1) +
          (if isLeap (y : Int) = true ∧ M ≥ 3 then 1 else 0)) := by
      split_ifs <;> omega
    simp only [e]
    have hN : daysSinceEpoch (y : Int) + (daysBefore (M - 1) +
        (if isLeap (y : Int) = true ∧ M ≥ 3 then 1 else 0)) + (D - 1) = abs t / 86400 := by
      omega
    rw [hN]
    simp only [unixToAbsolute] at ha ⊢
    omega

/-- Reading back, in the zone of `t`, the text `t.Format(format)`: for a wall
clock reading in the years 0 to 9999 the parse succeeds and gives the instant
of `t`, to the second. -/
theorem ParseInLocation_Format (t : time.Time) (hlo : -62167219200 ≤ t.sec + t.loc)
    (hhi : t.sec + t.loc < 253402300800) :
    ParseInLocation format (Format t format) t.loc =
      .ok { sec := t.sec, nsec := 0, loc := t.loc } := by
  obtain ⟨y, M, D, H, Mi, S, hy, hM1, hM, hD1, hD, hH, hMi, hS, hday, hfmt, hdate⟩ :=
    Format_shape t hlo hhi
  have hparse := parseDateTime_digits y M D H Mi S hy hM1 hM (by omega) hH hMi hS
  have hday2 : ¬ (D < 1 ∨ D > daysIn M (y : Int)) := by omega
  simp only [ParseInLocation, true_or, if_true, hfmt, hparse, ne_eq, not_true_eq_false,
    if_false, hday2, hdate]

theorem plainChar_digit (k : Nat) (h : k < 10) : plainChar (digitChar k) := by
  interval_cases k <;> decide

theorem plainChar_all_digits2 (x : Nat) (h : x < 100) :
    ∀ c ∈ appendInt (x : Int) 2, plainChar c := by
  rw [appendInt_two x h]
  intro c hc
  simp only [List.mem_cons, List.mem_singleton, List.not_mem_nil, or_false] at hc
  rcases hc with rfl | rfl
  · exact plainChar_digit _ (by omega)
  · exact plainChar_digit _ (Nat.mod_lt _ (by norm_num))

theorem plainChar_all_digits4 (x : Nat) (h : x < 10000) :
    ∀ c ∈ appendInt (x : Int) 4, plainChar c := by
  rw [appendInt_four x h]
  intro c hc
  simp only [List.mem_cons, List.mem_singleton, List.not_mem_nil, or_false] at hc
  rcases hc with rfl | rfl | rfl | rfl
  · exact plainChar_digit _ (by omega)
  · exact plainChar_digit _ (Nat.mod_lt _ (by norm_num))
  · exact plainChar_digit _ (Nat.mod_lt _ (by norm_num))
  · exact plainChar_digit _ (Nat.mod_lt _ (by norm_num))

/-- The text `t.Format(format)` holds digits, hyphens, colons and a space
only, none of which JSON escapes. -/
theorem Format_plain (t : time.Time) (hlo : -62167219200 ≤ t.sec + t.loc)
    (hhi : t.sec + t.loc < 253402300800) :
    ∀ c ∈ (Format t format).data, plainChar c := by
  obtain ⟨y, M, D, H, Mi, S, hy, hM1, hM, hD1, hD, hH, hMi, hS, hday, hfmt, hdate⟩ :=
    Format_shape t hlo hhi
  rw [hfmt]
  intro c hc
  simp only [List.mem_append, List.mem_cons, or_assoc] at hc
  have p1 : plainChar '-' := by decide
  have p2 : plainChar ':' := by decide
  have p3 : plainChar ' ' := by decide
  rcases hc with hc | rfl | hc | rfl | hc | rfl | hc | rfl | hc | rfl | hc
  · exact plainChar_all_digits4 y hy c hc
  · exact p1
  · exact plainChar_all_digits2 M (by omega) c hc
  · exact p1
  · exact plainChar_all_digits2 D (by omega) c hc
  · exact p3
  · exact plainChar_all_digits2 H (by omega) c hc
  · exact p2
  · exact plainChar_all_digits2 Mi (by omega) c hc
  · exact p2
  · exact plainChar_all_digits2 S (by omega) c hc

theorem flatMap_escapeChar_plain (cs : List Char) (h : ∀ c ∈ cs, plainChar c) :
    cs.flatMap escapeChar = cs := by
  induction cs with
  | nil => rfl
  | cons c cs ih =>
    have hc := (h c (List.mem_cons_self _ _)).1
    simp only [List.flatMap_cons, hc, List.singleton_append]
    rw [ih (fun x hx => h x (List.mem_cons_of_mem _ hx))]

theorem unquote_plain (cs tail acc : List Char) (fuel : Nat) (h : ∀ c ∈ cs, plainChar c)
    (hf : cs.length < fuel) :
    unquote fuel (cs ++ quote :: tail) acc = some (acc.reverse ++ cs, tail) := by
  induction cs generalizing acc fuel with
  | nil =>
    cases fuel with
    | zero => simp at hf
    | succ f => simp [unquote]
  | cons c cs ih =>
    cases fuel with
    | zero => simp at hf
    | succ f =>
      obtain ⟨_, h1, h2, h3⟩ := h c (List.mem_cons_self _ _)
      simp only [List.cons_append, unquote, h1, h2, h3, if_false]
      rw [ih (c :: acc) f (fun x hx => h x (List.mem_cons_of_mem _ hx))
        (by simpa using hf)]
      simp

/-- Decoding what `json.Marshal` wrote for a text without characters that
JSON escapes gives the text back. -/
theorem jsonUnmarshal_jsonMarshal_plain (s : String) (h : ∀ c ∈ s.data, plainChar c) :
    jsonUnmarshal (jsonMarshal s) = .ok s := by
  have hq : isSpace quote = false := by decide
  simp only [jsonUnmarshal, jsonMarshal, flatMap_escapeChar_plain s.data h, List.dropWhile, hq]
  simp only [if_true]
  rw [unquote_plain s.data [] [] _ h
    (by simp only [List.length_append, List.length_singleton]; omega)]
  simp

theorem jsonMarshal_ne (s : String) :
    len (jsonMarshal s) ≠ 0 ∧ jsonMarshal s ≠ null.NullBytes := by
  constructor
  · rw [ne_eq, len_eq_zero_iff]
    intro h
    have := congrArg String.data h
    simp [jsonMarshal] at this
  · intro h
    have := congrArg String.data h
    simp only [jsonMarshal, null.NullBytes] at this
    have h2 := (List.cons.inj this).1
    exact absurd h2 (by decide)

end golib
/-! ## Claim on the encode/decode round trip -/

/-- C7, as stated, fails: the instant 10000-01-01 00:00:00 UTC has
`Unix() = 253402300800 > 0`; `MarshalJSON` writes its year with five digits, as
`"10000-01-01 00:00:00"`, which neither the fixed layout nor RFC 3339 reads
back, so `UnmarshalJSON` returns an error. -/
theorem roundtrip_fails_in_year_10000 :
    (0 : Int) < time.Time.Unix ⟨253402300800, 0, 0⟩ ∧
    (TimeFrom ⟨253402300800, 0, 0⟩).MarshalJSON (goStdlib 0) =
      golib.jsonMarshal "10000-01-01 00:00:00" ∧
    (Time.zero.UnmarshalJSON (goStdlib 0)
      (some ((TimeFrom ⟨253402300800, 0, 0⟩).MarshalJSON (goStdlib 0)))).2 ≠ none := by
  decide

/-- C7, amended: for every instant `t` with `t.Unix() > 0` whose wall clock
reading in its zone lies in the years 0 to 9999 (from 0000-01-01 00:00:00 to
9999-12-31 23:59:59), the zone being the local zone and having a fixed offset,
decoding with `Time.UnmarshalJSON` the bytes produced by
`TimeFrom(t).MarshalJSON()` returns no error and yields a valid value whose
`Unix()` equals `t.Unix()`, whatever the receiver held before. -/
theorem MarshalJSON_UnmarshalJSON (loc : time.Location) (t : time.Time) (x : utils.Time)
    (hpos : 0 < t.Unix) (hloc : t.loc = loc)
    (hlo : -62167219200 ≤ t.sec + t.loc) (hhi : t.sec + t.loc < 253402300800) :
    (x.UnmarshalJSON (goStdlib loc) (some ((TimeFrom t).MarshalJSON (goStdlib loc)))).2 = none ∧
    (x.UnmarshalJSON (goStdlib loc) (some ((TimeFrom t).MarshalJSON (goStdlib loc)))).1.Valid
      = true ∧
    (x.UnmarshalJSON (goStdlib loc) (some ((TimeFrom t).MarshalJSON (goStdlib loc)))).1.Unix
      = t.Unix := by
  subst hloc
  have hm : (TimeFrom t).MarshalJSON (goStdlib t.loc) =
      golib.jsonMarshal (golib.Format t format) := by
    simp [Time.MarshalJSON, TimeFrom, null.TimeFrom, Time.Valid, goStdlib]
  obtain ⟨hne1, hne2⟩ := golib.jsonMarshal_ne (golib.Format t format)
  have hb : ¬ (len (golib.jsonMarshal (golib.Format t format)) = 0 ∨
      golib.jsonMarshal (golib.Format t format) = null.NullBytes) := by
    rintro (h | h)
    · exact hne1 h
    · exact hne2 h
  have hj := golib.jsonUnmarshal_jsonMarshal_plain _ (golib.Format_plain t hlo hhi)
  have hp := golib.ParseInLocation_Format t hlo hhi
  have hres : x.UnmarshalJSON (goStdlib t.loc)
      (some ((TimeFrom t).MarshalJSON (goStdlib t.loc))) =
      (x.SetValid { sec := t.sec, nsec := 0, loc := t.loc }, none) := by
    rw [hm]
    simp only [Time.UnmarshalJSON, unmarshalWith, hb, if_false, goStdlib, hj, hp]
  rw [hres]
  have hv : (0 : Int) < time.Time.Unix { sec := t.sec, nsec := 0, loc := t.loc } := hpos
  rw [SetValid_of_pos x _ hv]
  exact ⟨rfl, rfl, rfl⟩

/-- Witness of C7 amended: 2023-11-14 23:13:20 in a zone one hour east of UTC,
decoded into the zero value. -/
theorem MarshalJSON_UnmarshalJSON_witness :
    (Time.zero.UnmarshalJSON (goStdlib 3600)
      (some ((TimeFrom ⟨1700000000, 123, 3600⟩).MarshalJSON (goStdlib 3600)))).1.Unix
      = 1700000000 :=
  (MarshalJSON_UnmarshalJSON 3600 ⟨1700000000, 123, 3600⟩ Time.zero
    (by decide) rfl (by decide) (by decide)).2.2

/-! ## Lemmas on validation -/

theorem Validate_eq_none_iff (p : Page) :
    p.Validate = none ↔
      (0 ≤ p.PageStart ∧ 1 ≤ p.PageSize ∧
        (p.Order = "" ∨ p.Order = "ASC" ∨ p.Order = "DESC")) := by
  unfold Page.Validate
  by_cases h1 : p.PageStart < 0
  · simp only [h1, if_true, reduceCtorEq, false_iff]
    omega
  · by_cases h2 : p.PageSize < 1
    · simp only [h1, h2, if_true, if_false, reduceCtorEq, false_iff]
      omega
    · have g1 : 0 ≤ p.PageStart := by omega
      have g2 : 1 ≤ p.PageSize := by omega
      simp only [h1, h2, if_false, g1, g2, true_and]
      by_cases h3 : p.Order = ""
      · have h3l : ¬ (len p.Order > 0) := by rw [len_pos_iff]; simpa using h3
        simp [h3, len_empty]
      · have h3l : len p.Order > 0 := (len_pos_iff _).mpr h3
        by_cases h4 : p.Order = "ASC"
        · simp [h3l, h4]
        · by_cases h5 : p.Order = "DESC"
          · simp [h3l, h5]
          · simp [h3l, h3, h4, h5]

theorem int64Literal_eq (s : String) :
    int64Literal s =
      (match ParseInt s with
       | .ok n => some n
       | .error _ => none) := by
  cases h : ParseInt s with
  | ok n => exact (ParseInt_eq_ok_iff s n).mp h
  | error e =>
    cases h2 : int64Literal s with
    | none => rfl
    | some n => rw [(ParseInt_eq_ok_iff s n).mpr h2] at h; cases h

/-- The fields of a parsed descriptor in terms of the texts of the parameters,
for a mapping that may be nil. -/
theorem NewPage_fields (params : Option Values) :
    (NewPage params).PageStart =
      (match int64Literal (GetNil params "pageStart") with
       | none => 0
       | some n => n) ∧
    (NewPage params).PageSize =
      (match int64Literal (GetNil params "pageSize") with
       | none => 20
       | some n => if n = 0 then 20 else n) ∧
    (NewPage params).Order =
      (if GetNil params "order" = "" then "DESC" else GetNil params "order") := by
  cases params with
  | none => simp only [NewPage, GetNil]; decide
  | some v =>
    rw [NewPage_some]
    simp only [GetNil, int64Literal_eq]
    refine ⟨?_, ?_, trivial⟩
    · cases ParseInt (v.Get "pageStart") <;> rfl
    · cases ParseInt (v.Get "pageSize") <;> rfl

/-! ## Claims on the transaction handler -/

/-- C11: exactly one terminal action per invocation.  For every non-nil unit
of work `h` and every transaction, `Do` calls `h` once, then exactly one of
`Commit` and `Rollback`, once: `Rollback` if and only if `h` returned an error,
`Commit` if and only if `h` returned nil.  The store `Do` leaves is the one
that this single call of `tx.Rollback`, or of `tx.Commit`, leaves when applied
to the store `h` left; run on a transaction and a unit of work that record
every call really made on them, the record is `h` then `Rollback`, or `h` then
`Commit`; and the error returned comes from those calls.  For a nil unit of
work `Do` returns nil, calls neither and leaves the store as it is. -/
theorem Do_one_terminal_action {W : Type} (tx : Transaction W) (w : W) :
    (∀ f : W → W × Option Error,
      ((TxHandler.Do (some f) tx w).calls = [.handler, .Rollback] ∨
        (TxHandler.Do (some f) tx w).calls = [.handler, .Commit]) ∧
      ((TxHandler.Do (some f) tx w).calls = [.handler, .Rollback] ↔ (f w).2 ≠ none) ∧
      ((TxHandler.Do (some f) tx w).calls = [.handler, .Commit] ↔ (f w).2 = none) ∧
      ((f w).2 ≠ none →
        (TxHandler.Do (some f) tx w).store = (tx.Rollback (f w).1).1 ∧
        (TxHandler.Do (some (recordedHandler f)) tx.recorded (w, [])).store =
          ((tx.Rollback (f w).1).1, [.handler, .Rollback]) ∧
        (TxHandler.Do (some f) tx w).err ≠ none) ∧
      ((f w).2 = none →
        (TxHandler.Do (some f) tx w).store = (tx.Commit (f w).1).1 ∧
        (TxHandler.Do (some (recordedHandler f)) tx.recorded (w, [])).store =
          ((tx.Commit (f w).1).1, [.handler, .Commit]) ∧
        ((TxHandler.Do (some f) tx w).err = none ↔ (tx.Commit (f w).1).2 = none))) ∧
    (TxHandler.Do none tx w).err = none ∧
    (TxHandler.Do none tx w).calls = [] ∧
    (TxHandler.Do none tx w).store = w ∧
    (TxHandler.Do none tx.recorded (w, [])).store = (w, []) := by
  refine ⟨fun f => ?_, rfl, rfl, rfl, rfl⟩
  unfold TxHandler.Do
  rcases hf : f w with ⟨w1, _ | e⟩
  · rcases hc : tx.Commit w1 with ⟨w2, _ | c⟩ <;>
      simp [hf, hc, recordedHandler, Transaction.recorded]
  · rcases hr : tx.Rollback w1 with ⟨w2, _ | r⟩ <;>
      simp [hf, hr, recordedHandler, Transaction.recorded]

/-- Witness of C11: on a store that counts, the unit of work adds 1 and fails,
`Commit` would add 10 and `Rollback` adds 100: `Do` leaves 101, and the record
of calls is the unit of work, then `Rollback`. -/
theorem Do_one_terminal_action_witness :
    (TxHandler.Do (some (fun w : Nat => (w + 1, some "work failed")))
      { Commit := fun w => (w + 10, none), Rollback := fun w => (w + 100, none) } 0).store
      = 101 ∧
    (TxHandler.Do (some (recordedHandler (fun w : Nat => (w + 1, some "work failed"))))
      (Transaction.recorded
        { Commit := fun w => (w + 10, none), Rollback := fun w => (w + 100, none) })
      (0, [])).store = (101, [.handler, .Rollback]) :=
  ⟨((((Do_one_terminal_action
      { Commit := fun w => (w + 10, none), Rollback := fun w => (w + 100, none) }
      (0 : Nat)).1 (fun w => (w + 1, some "work failed"))).2.2.2.1 (by decide)).1).trans
      (by decide),
   ((((Do_one_terminal_action
      { Commit := fun w => (w + 10, none), Rollback := fun w => (w + 100, none) }
      (0 : Nat)).1 (fun w => (w + 1, some "work failed"))).2.2.2.1 (by decide)).2.1).trans
      (by decide)⟩

/-- C12: error precedence of `Do` for a non-nil unit of work `h`.  If `h` fails
with `e` and `Rollback` succeeds, `Do` returns `e`; if `h` fails and `Rollback`
fails with `r`, `Do` returns `r` annotated with `TxHandler.do.rollback`,
whatever `e` is; if `h` succeeds and `Commit` fails with `c`, `Do` returns `c`
annotated with `TxHandler.do.commit`; and `Do` returns nil if and only if `h`
succeeds and `Commit` succeeds. -/
theorem Do_error_precedence {W : Type} (tx : Transaction W) (w : W)
    (f : W → W × Option Error) :
    (∀ e, (f w).2 = some e → (tx.Rollback (f w).1).2 = none →
      (TxHandler.Do (some f) tx w).err = some e) ∧
    (∀ e r, (f w).2 = some e → (tx.Rollback (f w).1).2 = some r →
      (TxHandler.Do (some f) tx w).err = some (errors.Annotatef r "TxHandler.do.rollback")) ∧
    (∀ c, (f w).2 = none → (tx.Commit (f w).1).2 = some c →
      (TxHandler.Do (some f) tx w).err = some (errors.Annotatef c "TxHandler.do.commit")) ∧
    ((TxHandler.Do (some f) tx w).err = none ↔
      ((f w).2 = none ∧ (tx.Commit (f w).1).2 = none)) := by
  unfold TxHandler.Do
  rcases hf : f w with ⟨w1, _ | e⟩
  · rcases hc : tx.Commit w1 with ⟨w2, _ | c⟩ <;> simp [hf, hc]
  · rcases hr : tx.Rollback w1 with ⟨w2, _ | r⟩ <;> simp [hf, hr]

/-- Witness of C12: a unit of work that fails with `work failed` on a
transaction whose rollback fails with `connection lost`. -/
theorem Do_error_precedence_witness :
    (TxHandler.Do (some (fun w : Nat => (w + 1, some "work failed")))
      { Commit := fun w => (w, none), Rollback := fun w => (w, some "connection lost") }
      0).err = some "TxHandler.do.rollback: connection lost" :=
  ((Do_error_precedence
      { Commit := fun w => (w, none), Rollback := fun w => (w, some "connection lost") }
      (0 : Nat) (fun w => (w + 1, some "work failed"))).2.1
    "work failed" "connection lost" rfl rfl).trans (by decide)

/-! ## Claims on the paged query executor -/

theorem shapeQuery_invalid {W Q H V : Type} (ops : QueryOps W Q H V) (q : Q) (p : Page)
    (e : Error) (hv : p.Validate = some e) :
    shapeQuery ops q (some p) = .error (errors.Trace e) := by
  simp only [shapeQuery, hv]

/-- C14: the count runs first and its failure aborts.  `LoadPage` runs the
count on `countQueries[0]` when it is supplied and not nil, otherwise on the
data query itself, as it is before any ordering, offset or limit is applied,
and before any other call; if that count fails with `err`, `LoadPage` returns
`(-1, err)`, makes no other call (so no fetch), and leaves the data query, the
page descriptor and the destination as they were, and the store as the count
left it. -/
theorem LoadPage_count_first {W Q H V : Type} (ops : QueryOps W Q H V) (tx : W) (q : Q)
    (page : Option Page) (holder : H) (countQueries : List (Option Q)) :
    (∀ v rest, countTarget q (some v :: rest) = v) ∧
    (∀ rest, countTarget q (none :: rest) = q) ∧
    countTarget q [] = q ∧
    (LoadPage ops tx q page holder countQueries).2.calls.head? =
      some (.Count (countTarget q countQueries)) ∧
    (∀ err, (ops.Count (countTarget q countQueries) tx).2 = .error err →
      (LoadPage ops tx q page holder countQueries).1 = (-1, some (errors.Trace err)) ∧
      (LoadPage ops tx q page holder countQueries).2.calls =
        [.Count (countTarget q countQueries)] ∧
      (LoadPage ops tx q page holder countQueries).2.q = q ∧
      (LoadPage ops tx q page holder countQueries).2.page = page ∧
      (LoadPage ops tx q page holder countQueries).2.holder = holder ∧
      (LoadPage ops tx q page holder countQueries).2.tx =
        (ops.Count (countTarget q countQueries) tx).1) := by
  refine ⟨fun _ _ => rfl, fun _ => rfl, rfl, ?_, ?_⟩
  · simp only [LoadPage]
    rcases hcount : ops.Count (countTarget q countQueries) tx with ⟨tx1, err | n⟩
    · rfl
    · simp only
      rcases hshape : shapeQuery ops q page with e | ⟨page1, q1⟩
      · rfl
      · simp only
        rcases hf : ops.FetchAll q1 tx1 holder with ⟨tx2, holder1, _ | e⟩ <;> rfl
  · intro err herr
    rcases hcount : ops.Count (countTarget q countQueries) tx with ⟨tx1, r⟩
    rw [hcount] at herr
    simp only at herr
    subst herr
    simp [LoadPage, hcount]

/-- Witness of C14: a failing count on the supplied count query. -/
theorem LoadPage_count_first_witness :
    (LoadPage specOps failingTx exampleQuery (some ⟨1, 2, "", "id", ""⟩) []
      [some exampleCountQuery]).1 = (-1, some "boom") ∧
    (LoadPage specOps failingTx exampleQuery (some ⟨1, 2, "", "id", ""⟩) []
      [some exampleCountQuery]).2.calls = [.Count exampleCountQuery] ∧
    (LoadPage specOps failingTx exampleQuery (some ⟨1, 2, "", "id", ""⟩) []
      [some exampleCountQuery]).2.q = exampleQuery :=
  ⟨((LoadPage_count_first specOps failingTx exampleQuery (some ⟨1, 2, "", "id", ""⟩) []
      [some exampleCountQuery]).2.2.2.2 "boom" rfl).1,
   ((LoadPage_count_first specOps failingTx exampleQuery (some ⟨1, 2, "", "id", ""⟩) []
      [some exampleCountQuery]).2.2.2.2 "boom" rfl).2.1,
   ((LoadPage_count_first specOps failingTx exampleQuery (some ⟨1, 2, "", "id", ""⟩) []
      [some exampleCountQuery]).2.2.2.2 "boom" rfl).2.2.1⟩

/-- The error path of `LoadPageResponse2` after a failed scalar count: the
error is built by `QueryValError` from the error, the query text and a nil
slice of values. -/
theorem LoadPageResponse2_count_error {W Q H V : Type} (ops : QueryOps W Q H V) (tx : W)
    (q : Q) (page : Option Page) (holder : H) (countQuery : Q) (err : Error)
    (hval : (ops.ValQuery countQuery).2.2 = none)
    (hsel : (ops.SelectInt tx (ops.ValQuery countQuery).1 (ops.ValQuery countQuery).2.1).2
      = .error err) :
    (LoadPageResponse2 ops tx q page holder countQuery).1 =
      (none, some (ops.QueryValError q err (ops.ValQuery countQuery).1 none)) := by
  rcases hv : ops.ValQuery countQuery with ⟨text, vals, verr⟩
  rw [hv] at hval hsel
  simp only at hval hsel
  subst hval
  rcases hs : ops.SelectInt tx text vals with ⟨tx1, r⟩
  rw [hs] at hsel
  simp only at hsel
  subst hsel
  simp only [LoadPageResponse2, hv, hs]

/-- C15 fails on the code: when the scalar count of `LoadPageResponse2` fails,
the error is built with a nil slice in place of the bound values.  Here the
count query has the text `SELECT COUNT(1) FROM t WHERE id > ?` and the bound
value `7`, which is passed to `SelectInt`; the error returned holds the text
and no value, and differs from the error that keeps the value. -/
theorem LoadPageResponse2_drops_bound_values :
    (LoadPageResponse2 specOps failingTx exampleQuery none [] exampleCountQuery).2.calls =
      [.SelectInt "SELECT COUNT(1) FROM t WHERE id > ?" ["7"]] ∧
    (LoadPageResponse2 specOps failingTx exampleQuery none [] exampleCountQuery).1.2 =
      some "boom [query: SELECT COUNT(1) FROM t WHERE id > ?] [values: ]" ∧
    specOps.QueryValError exampleQuery "boom" "SELECT COUNT(1) FROM t WHERE id > ?"
        (some ["7"]) =
      "boom [query: SELECT COUNT(1) FROM t WHERE id > ?] [values: 7]" ∧
    (LoadPageResponse2 specOps failingTx exampleQuery none [] exampleCountQuery).1.2 ≠
      some (specOps.QueryValError exampleQuery "boom" "SELECT COUNT(1) FROM t WHERE id > ?"
        (some ["7"])) := by
  decide

/-- C16: validation gates query shaping.  For every non-nil page descriptor on
which `Validate` fails, `LoadPage` returns the count -1 and an error and
`LoadPage2` returns the validation error; neither runs the data fetch, and
both leave the data query, the page descriptor and the destination as they
were, and the store as the count left it (`LoadPage`) or untouched
(`LoadPage2`).  Hence whenever either of them runs the fetch with a non-nil page
descriptor, the offset it applied is not negative and the limit is at least
1. -/
theorem Validate_gates_shaping {W Q H V : Type} (ops : QueryOps W Q H V) (tx : W) (q : Q)
    (p : Page) (holder : H) (countQueries : List (Option Q)) :
    (∀ e, p.Validate = some e →
      (LoadPage ops tx q (some p) holder countQueries).1.1 = -1 ∧
      (LoadPage ops tx q (some p) holder countQueries).1.2 ≠ none ∧
      (LoadPage ops tx q (some p) holder countQueries).2.calls =
        [.Count (countTarget q countQueries)] ∧
      (LoadPage ops tx q (some p) holder countQueries).2.q = q ∧
      (LoadPage ops tx q (some p) holder countQueries).2.page = some p ∧
      (LoadPage ops tx q (some p) holder countQueries).2.holder = holder ∧
      (LoadPage2 ops tx q (some p) holder).1 = some (errors.Trace e) ∧
      (LoadPage2 ops tx q (some p) holder).2.calls = [] ∧
      (LoadPage2 ops tx q (some p) holder).2.q = q ∧
      (LoadPage2 ops tx q (some p) holder).2.page = some p ∧
      (LoadPage2 ops tx q (some p) holder).2.holder = holder ∧
      (LoadPage ops tx q (some p) holder countQueries).2.tx =
        (ops.Count (countTarget q countQueries) tx).1 ∧
      (LoadPage2 ops tx q (some p) holder).2.tx = tx) ∧
    ((∃ q1, QueryCall.FetchAll q1 ∈ (LoadPage ops tx q (some p) holder countQueries).2.calls) →
      0 ≤ p.PageStart ∧ 1 ≤ p.PageSize) ∧
    ((∃ q1, QueryCall.FetchAll q1 ∈ (LoadPage2 ops tx q (some p) holder).2.calls) →
      0 ≤ p.PageStart ∧ 1 ≤ p.PageSize) := by
  have main : ∀ e, p.Validate = some e →
      (LoadPage ops tx q (some p) holder countQueries).1.1 = -1 ∧
      (LoadPage ops tx q (some p) holder countQueries).1.2 ≠ none ∧
      (LoadPage ops tx q (some p) holder countQueries).2.calls =
        [.Count (countTarget q countQueries)] ∧
      (LoadPage ops tx q (some p) holder countQueries).2.q = q ∧
      (LoadPage ops tx q (some p) holder countQueries).2.page = some p ∧
      (LoadPage ops tx q (some p) holder countQueries).2.holder = holder ∧
      (LoadPage2 ops tx q (some p) holder).1 = some (errors.Trace e) ∧
      (LoadPage2 ops tx q (some p) holder).2.calls = [] ∧
      (LoadPage2 ops tx q (some p) holder).2.q = q ∧
      (LoadPage2 ops tx q (some p) holder).2.page = some p ∧
      (LoadPage2 ops tx q (some p) holder).2.holder = holder ∧
      (LoadPage ops tx q (some p) holder countQueries).2.tx =
        (ops.Count (countTarget q countQueries) tx).1 ∧
      (LoadPage2 ops tx q (some p) holder).2.tx = tx := by
    intro e he
    have hshape := shapeQuery_invalid ops q p e he
    simp only [LoadPage, LoadPage2, hshape]
    rcases hcount : ops.Count (countTarget q countQueries) tx with ⟨tx1, err | n⟩ <;> simp
  refine ⟨main, ?_, ?_⟩
  · rintro ⟨q1, hq1⟩
    cases hv : p.Validate with
    | none =>
      have := (Validate_eq_none_iff p).mp hv
      exact ⟨this.1, this.2.1⟩
    | some e =>
      rw [(main e hv).2.2.1] at hq1
      simp at hq1
  · rintro ⟨q1, hq1⟩
    cases hv : p.Validate with
    | none =>
      have := (Validate_eq_none_iff p).mp hv
      exact ⟨this.1, this.2.1⟩
    | some e =>
      rw [(main e hv).2.2.2.2.2.2.2.1] at hq1
      simp at hq1

/-- Witness of C16: a page descriptor with a negative start. -/
theorem Validate_gates_shaping_witness :
    (LoadPage specOps exampleTx exampleQuery (some ⟨-1, 2, "", "id", ""⟩) [] []).1.1 = -1 ∧
    (LoadPage specOps exampleTx exampleQuery (some ⟨-1, 2, "", "id", ""⟩) [] []).2.q =
      exampleQuery ∧
    (LoadPage2 specOps exampleTx exampleQuery (some ⟨-1, 2, "", "id", ""⟩) []).2.calls = [] :=
  ⟨((Validate_gates_shaping specOps exampleTx exampleQuery ⟨-1, 2, "", "id", ""⟩ [] []).1
      "pageStart must greater or equal than 0, got -1" (by decide)).1,
   ((Validate_gates_shaping specOps exampleTx exampleQuery ⟨-1, 2, "", "id", ""⟩ [] []).1
      "pageStart must greater or equal than 0, got -1" (by decide)).2.2.2.1,
   ((Validate_gates_shaping specOps exampleTx exampleQuery ⟨-1, 2, "", "id", ""⟩ [] []).1
      "pageStart must greater or equal than 0, got -1" (by decide)).2.2.2.2.2.2.2.1⟩

/-! ## Further claims on decoding and on parsed descriptors -/

/-- C17: a well-formed timestamp whose instant has `Unix() <= 0` is dropped
without an error.  For every receiver and every bytes (neither empty nor the
null token) that decode as the JSON string `s`, if the instant `v` that
decoding uses (that of the fixed layout, or that of RFC 3339 when the fixed
layout fails) has `v.Unix() <= 0`, then `Time.UnmarshalJSON` returns nil and
leaves the receiver exactly as it was: a valid receiver keeps its instant and
its validity. -/
theorem UnmarshalJSON_drops_nonpositive (L : Stdlib) (t : utils.Time) (b s : String)
    (v : time.Time) (hlen : len b ≠ 0) (hnull : b ≠ "null")
    (hs : L.jsonUnmarshal b = .ok s)
    (hv : L.ParseInLocation format s L.Local = .ok v ∨
      ((∃ e, L.ParseInLocation format s L.Local = .error e) ∧
        L.Parse time.RFC3339 s = .ok v))
    (hle : v.Unix ≤ 0) :
    t.UnmarshalJSON L (some b) = (t, none) ∧
    (t.UnmarshalJSON L (some b)).1.Valid = t.Valid ∧
    (t.UnmarshalJSON L (some b)).1.Time.Time = t.Time.Time := by
  have hb : ¬ (len b = 0 ∨ b = null.NullBytes) := by
    rintro (h | h)
    · exact hlen h
    · exact hnull h
  have key : t.UnmarshalJSON L (some b) = (t, none) := by
    rcases hv with h1 | ⟨⟨e, h1⟩, h2⟩
    · simp only [Time.UnmarshalJSON, unmarshalWith, hb, if_false, hs, h1,
        SetValid_of_nonpos t v hle]
    · simp only [Time.UnmarshalJSON, unmarshalWith, hb, if_false, hs, h1, h2,
        SetValid_of_nonpos t v hle]
  rw [key]
  exact ⟨rfl, rfl, rfl⟩

/-- Witness of C17: the text `1970-01-01 00:00:00`, read in UTC, is the
instant of the epoch; decoding it into a valid value changes nothing. -/
theorem UnmarshalJSON_drops_nonpositive_witness :
    (TimeFrom ⟨1700000000, 5, 0⟩).UnmarshalJSON (goStdlib 0)
      (some (golib.jsonMarshal "1970-01-01 00:00:00")) =
      (TimeFrom ⟨1700000000, 5, 0⟩, none) :=
  (UnmarshalJSON_drops_nonpositive (goStdlib 0) (TimeFrom ⟨1700000000, 5, 0⟩)
    (golib.jsonMarshal "1970-01-01 00:00:00") "1970-01-01 00:00:00" ⟨0, 0, 0⟩
    (by decide) (by decide) (by decide) (Or.inl (by decide)) (by decide)).1

/-- C18: normal form of parsed descriptors.  For every parameter mapping (nil
included), `NewPage(params)` has `PageSize != 0` and `Order != ""`; `Validate`
on it fails if and only if the text of `pageStart` denotes a negative number,
or the text of `pageSize` denotes a negative number, or the text of `order` is
non-empty and neither `"ASC"` nor `"DESC"`; and `NewPage(nil)` equals `NewPage`
of the empty mapping, namely `{0, 20, "DESC", "", ""}`, which passes
`Validate`. -/
theorem NewPage_normal_form (params : Option Values) :
    (NewPage params).PageSize ≠ 0 ∧
    (NewPage params).Order ≠ "" ∧
    ((NewPage params).Validate ≠ none ↔
      ((∃ n, int64Literal (GetNil params "pageStart") = some n ∧ n < 0) ∨
       (∃ n, int64Literal (GetNil params "pageSize") = some n ∧ n < 0) ∨
       (GetNil params "order" ≠ "" ∧ GetNil params "order" ≠ "ASC" ∧
         GetNil params "order" ≠ "DESC"))) ∧
    NewPage none = NewPage (some []) ∧
    NewPage none = ⟨0, 20, "DESC", "", ""⟩ ∧
    (NewPage none).Validate = none := by
  refine ⟨NewPage_PageSize_ne_zero params, NewPage_Order_ne_empty params, ?_,
    by decide, by decide, by decide⟩
  obtain ⟨e1, e2, e3⟩ := NewPage_fields params
  have hstart : 0 ≤ (NewPage params).PageStart ↔
      ¬ ∃ n, int64Literal (GetNil params "pageStart") = some n ∧ n < 0 := by
    rw [e1]
    cases int64Literal (GetNil params "pageStart") with
    | none => simp
    | some n => simp
  have hsize : 1 ≤ (NewPage params).PageSize ↔
      ¬ ∃ n, int64Literal (GetNil params "pageSize") = some n ∧ n < 0 := by
    rw [e2]
    cases int64Literal (GetNil params "pageSize") with
    | none => simp
    | some n =>
      by_cases hz : n = 0
      · simp [hz]
      · simp only [hz, if_false, Option.some.injEq, exists_eq_left', not_lt]
        omega
  have horder : ((NewPage params).Order = "" ∨ (NewPage params).Order = "ASC" ∨
      (NewPage params).Order = "DESC") ↔
      ¬ (GetNil params "order" ≠ "" ∧ GetNil params "order" ≠ "ASC" ∧
         GetNil params "order" ≠ "DESC") := by
    rw [e3]
    by_cases ho : GetNil params "order" = ""
    · simp [ho]
    · simp only [ho, if_false, false_or, ne_eq, not_false_eq_true, true_and]
      constructor
      · rintro (h | h) ⟨h1, h2⟩
        · exact h1 h
        · exact h2 h
      · intro h
        by_contra hn
        exact h ⟨fun a => hn (Or.inl a), fun b => hn (Or.inr b)⟩
  rw [ne_eq, Validate_eq_none_iff, hstart, hsize, horder]
  constructor
  · intro h
    by_contra hn
    exact h ⟨fun a => hn (Or.inl a), fun b => hn (Or.inr (Or.inl b)),
      fun c => hn (Or.inr (Or.inr c))⟩
  · rintro (a | b | c) ⟨h1, h2, h3⟩
    · exact h1 a
    · exact h2 b
    · exact h3 c

end utils
